import Mathlib

/-!
Verification of the resumable, integrity-verified, parallel file downloader of
`Download_Models.py` (class `RobustDownloader`).

The embedding models the filesystem as a map from path strings to files (a byte
list plus a modification time), HTTP servers as oracle functions from the
requested byte range to an optional response body (`none` standing for a
request exception or a rejected status code), and SHA-256 as an abstract hash
function passed as a parameter.  Each Python method of `RobustDownloader` that
the claims bear on is translated into a pure Lean function over this state;
retry loops become fuel-indexed recursion with fuel equal to the configured
attempt ceiling.  Wall-clock aspects (sleep between retries, progress-line
rendering) do not affect the verified observable behavior (return values, file
contents, cache contents, request counts) and are not modelled.
-/

/-- An on-disk file: its byte content and its modification time (seconds,
modelled as an exact rational so the 1-second mtime tolerance of the verified
cache is expressible). -/
structure File where
  bytes : List Nat
  mtime : ℚ
deriving DecidableEq

/-- The filesystem: a partial map from path to file. -/
def FS : Type := String → Option File

/-- Write (create or truncate+write) a file. -/
def FS.set (fs : FS) (p : String) (f : File) : FS :=
  fun q => if q = p then some f else fs q

/-- Model of `os.remove` (removing a missing file is a no-op here; all call sites in the
source either guard with `os.path.exists` or swallow the exception). -/
def FS.rm (fs : FS) (p : String) : FS :=
  fun q => if q = p then none else fs q

/-- Model of `os.path.exists`. -/
def FS.pathExists (fs : FS) (p : String) : Bool :=
  (fs p).isSome

/-- Model of `os.path.getsize` (0 for a missing file; call sites guard existence). -/
def FS.size (fs : FS) (p : String) : Nat :=
  match fs p with
  | some f => f.bytes.length
  | none => 0

theorem FS.set_self (fs : FS) (p : String) (f : File) : (fs.set p f) p = some f := by
  simp [FS.set]

theorem FS.set_ne (fs : FS) (p q : String) (f : File) (h : q ≠ p) : (fs.set p f) q = fs q := by
  simp [FS.set, h]

theorem FS.rm_self (fs : FS) (p : String) : (fs.rm p) p = none := by
  simp [FS.rm]

theorem FS.rm_ne (fs : FS) (p q : String) (h : q ≠ p) : (fs.rm p) q = fs q := by
  simp [FS.rm, h]

/-- Association-list lookup for the JSON-dict caches. -/
def getKey {α : Type} : List (String × α) → String → Option α
  | [], _ => none
  | (k', v) :: rest, k => if k = k' then some v else getKey rest k

/-- Association-list update (dict assignment). -/
def setKey {α : Type} : List (String × α) → String → α → List (String × α)
  | [], k, v => [(k, v)]
  | (k', v') :: rest, k, v =>
      if k = k' then (k, v) :: rest else (k', v') :: setKey rest k v

theorem getKey_setKey_self {α : Type} (l : List (String × α)) (k : String) (v : α) :
    getKey (setKey l k v) k = some v := by
  induction l with
  | nil => simp [setKey, getKey]
  | cons hd tl ih =>
    obtain ⟨k', v'⟩ := hd
    by_cases h : k = k'
    · simp [setKey, getKey, h]
    · simp [setKey, getKey, h, ih]

/-- An entry of `verified_files_cache.json`: the VerificationRecord written by
`mark_file_verified` (sha256, size, mtime, verified_at). -/
structure VRecord where
  sha256 : String
  size : Nat
  mtime : ℚ
  verifiedAt : ℚ
deriving DecidableEq

/-- The two persistent JSON caches of `RobustDownloader`: `sha_cache`
(repo/filename to hex digest) and `verified_cache` (repo/filename to
VerificationRecord). -/
structure Caches where
  sha : List (String × String)
  verified : List (String × VRecord)
deriving DecidableEq

/-- Python truthiness of the `Optional[str]` expected-hash value
(`if expected_sha:`). -/
def shaTruthy : Option String → Bool
  | some s => s ≠ ""
  | none => false

/-- The string carried by a truthy expected hash (call sites are guarded by
`shaTruthy`). -/
def shaVal : Option String → String
  | some s => s
  | none => ""

/-- DOWNLOAD_CONFIG["num_connections"]. -/
def numConnections : Nat := 16

/-- DOWNLOAD_CONFIG["max_retries"]. -/
def maxRetries : Nat := 5

/-- Python's `abs`, written with an explicit sign test so that it evaluates
by kernel reduction. -/
def ratAbs (x : ℚ) : ℚ := if x < 0 then -x else x

theorem ratAbs_eq_abs (x : ℚ) : ratAbs x = |x| := by
  unfold ratAbs
  by_cases h : x < 0
  · rw [if_pos h, abs_of_neg h]
  · rw [if_neg h, abs_of_nonneg (not_lt.mp h)]

/-- Model of `RobustDownloader.is_file_verified`: a cached VerificationRecord is valid
only if the expected hash is truthy, the record exists under
`{repo_id}/{filename}`, the file exists, and the record's sha/size match with
mtime within 1-second tolerance (`abs(cached_mtime - current_mtime) < 1.0`). -/
def is_file_verified (c : Caches) (fs : FS) (repo_id filename filepath : String)
    (expected_sha : Option String) : Bool :=
  match expected_sha with
  | none => false
  | some s =>
    if s = "" then false
    else
      match getKey c.verified (repo_id ++ "/" ++ filename) with
      | none => false
      | some r =>
        match fs filepath with
        | none => false
        | some f =>
          decide (r.sha256 = s) && decide (r.size = f.bytes.length) &&
            decide (ratAbs (r.mtime - f.mtime) < 1)

/-- Model of `RobustDownloader.mark_file_verified`: records (sha256, current size,
current mtime, verification time) under `{repo_id}/{filename}`; a no-op if the
file does not exist. -/
def mark_file_verified (fs : FS) (c : Caches) (repo_id filename filepath : String)
    (sha256 : String) (now : ℚ) : Caches :=
  match fs filepath with
  | some f =>
      { c with verified :=
          setKey c.verified (repo_id ++ "/" ++ filename) ⟨sha256, f.bytes.length, f.mtime, now⟩ }
  | none => c

/-- Model of `RobustDownloader.get_file_sha256`: consult the sha cache first (no network
request); on a miss query remote metadata (`remoteSha` oracle; one network
request) and cache a hit.  Returns (hash, updated caches, requests issued). -/
def get_file_sha256 (c : Caches) (remoteSha : Option String) (repo_id filename : String) :
    Option String × Caches × Nat :=
  match getKey c.sha (repo_id ++ "/" ++ filename) with
  | some s => (some s, c, 0)
  | none =>
    match remoteSha with
    | some s => (some s, { c with sha := setKey c.sha (repo_id ++ "/" ++ filename) s }, 1)
    | none => (none, c, 1)

/-- Model of `RobustDownloader.verify_file_sha256`: vacuously true when no hash is
available; false when the file cannot be read; otherwise compares the computed
hash with the expected one. -/
def verify_file_sha256 (hash : List Nat → String) (fs : FS) (filepath : String)
    (expected_sha : Option String) : Bool :=
  match expected_sha with
  | none => true
  | some s =>
    if s = "" then true
    else
      match fs filepath with
      | some f => decide (hash f.bytes = s)
      | none => false

/-- The chunk-file name `f"{filepath}.part{chunk_id}"`. -/
def partName (filepath : String) (chunk_id : Nat) : String :=
  filepath ++ ".part" ++ toString chunk_id

/-- The merge temporary name `f"{filepath}.tmp"`. -/
def tmpName (filepath : String) : String :=
  filepath ++ ".tmp"

theorem String.data_app (a b : String) : (a ++ b).data = a.data ++ b.data := by
  cases a; cases b; rfl

theorem String.eq_of_data (a b : String) (h : a.data = b.data) : a = b := by
  cases a; cases b; exact congrArg String.mk h

theorem append_ne_self (s t : String) (h : t.data ≠ []) : s ++ t ≠ s := by
  intro he
  have hd := congrArg String.data he
  rw [String.data_app] at hd
  have := congrArg List.length hd
  simp at this
  exact h (List.length_eq_zero.mp this)

theorem partName_ne_filepath (filepath : String) (i : Nat) : partName filepath i ≠ filepath := by
  unfold partName
  rw [String.append_assoc]
  apply append_ne_self
  rw [String.data_app]
  simp [String.data]

theorem tmpName_ne_filepath (filepath : String) : tmpName filepath ≠ filepath := by
  unfold tmpName
  apply append_ne_self
  simp [String.data]

theorem append_left_cancel_str (s a b : String) (h : s ++ a = s ++ b) : a = b := by
  have hd := congrArg String.data h
  rw [String.data_app, String.data_app] at hd
  exact String.eq_of_data a b (List.append_cancel_left hd)

theorem partName_ne_tmpName (filepath : String) (i : Nat) :
    partName filepath i ≠ tmpName filepath := by
  unfold partName tmpName
  rw [String.append_assoc]
  intro h
  have h2 := append_left_cancel_str filepath _ _ h
  have hd := congrArg String.data h2
  rw [String.data_app] at hd
  simp [String.data] at hd

theorem partName_ne_of_toString_ne (filepath : String) (i j : Nat)
    (h : toString i ≠ toString j) : partName filepath i ≠ partName filepath j := by
  unfold partName
  rw [String.append_assoc, String.append_assoc]
  intro he
  have h2 := append_left_cancel_str filepath _ _ he
  exact h (append_left_cancel_str ".part" _ _ h2)

theorem toString_ne_of_lt16 : ∀ a, a < 16 → ∀ b, b < 16 → a ≠ b →
    toString a ≠ toString b := by decide

/-- Start offset of chunk `i` in `download_parallel`: `i * base_chunk_size`
with `base_chunk_size = file_size // num_connections`. -/
def startOf (file_size i : Nat) : Nat :=
  i * (file_size / numConnections)

/-- End offset (inclusive) of chunk `i` in `download_parallel`: the last chunk
gets all remaining bytes (`file_size - 1`), the others end one byte before the
next chunk's start. -/
def endOf (file_size i : Nat) : Nat :=
  if i = numConnections - 1 then file_size - 1
  else (i + 1) * (file_size / numConnections) - 1

/-- The chunk boundary list `chunks` built by `download_parallel`:
`(chunk_id, start, end)` for `chunk_id in range(num_connections)`. -/
def parallelChunks (file_size : Nat) : List (Nat × Nat × Nat) :=
  (List.range numConnections).map (fun i => (i, startOf file_size i, endOf file_size i))

/-- C5: for every total file size S > 10 MiB, `download_parallel` builds exactly
16 byte ranges with b = S div 16: range i is [i*b, (i+1)*b - 1] for i < 15 and
range 15 is [15*b, S - 1]; the ranges are ordered, pairwise non-overlapping,
together cover [0, S) exactly, and all have equal size b except the final one,
which absorbs the remainder. -/
theorem c5_chunk_plan (S : Nat) (hS : 10 * 1024 * 1024 < S) :
    parallelChunks S = (List.range 16).map (fun i => (i, startOf S i, endOf S i)) ∧
    startOf S 0 = 0 ∧
    (∀ i, i < 15 → startOf S i = i * (S / 16) ∧ endOf S i = (i + 1) * (S / 16) - 1) ∧
    startOf S 15 = 15 * (S / 16) ∧ endOf S 15 = S - 1 ∧
    (∀ i, i < 15 → endOf S i + 1 = startOf S (i + 1)) ∧
    (∀ i, i < 15 → endOf S i + 1 - startOf S i = S / 16) ∧
    endOf S 15 + 1 - startOf S 15 = S - 15 * (S / 16) ∧
    (∀ k, k < S → ∃ i, i < 16 ∧ startOf S i ≤ k ∧ k ≤ endOf S i) ∧
    (∀ i j, i < j → j < 16 → endOf S i < startOf S j) := by
  have hb : 1 ≤ S / 16 := (Nat.le_div_iff_mul_le (by norm_num)).mpr (by omega)
  refine ⟨rfl, by simp [startOf], ?_, rfl, ?_, ?_, ?_, ?_, ?_, ?_⟩
  · intro i hi
    exact ⟨rfl, by simp only [endOf, numConnections]; rw [if_neg (by omega)]⟩
  · simp [endOf, numConnections]
  · intro i hi
    simp only [endOf, startOf, numConnections]
    rw [if_neg (by omega)]
    have h1 : (i + 1) * (S / 16) = i * (S / 16) + S / 16 := by ring
    have h2 : 1 ≤ (i + 1) * (S / 16) := Nat.one_le_iff_ne_zero.mpr (by positivity)
    omega
  · intro i hi
    simp only [endOf, startOf, numConnections]
    rw [if_neg (by omega)]
    have h1 : (i + 1) * (S / 16) = i * (S / 16) + S / 16 := by ring
    have h2 : 1 ≤ (i + 1) * (S / 16) := Nat.one_le_iff_ne_zero.mpr (by positivity)
    omega
  · simp only [endOf, startOf, numConnections, if_true]
    omega
  · intro k hk
    by_cases h15 : k / (S / 16) < 15
    · refine ⟨k / (S / 16), by omega, ?_, ?_⟩
      · simp only [startOf, numConnections]
        exact Nat.div_mul_le_self k (S / 16)
      · have h1 := Nat.div_add_mod k (S / 16)
        have h2 := Nat.mod_lt k (show 0 < S / 16 by omega)
        have h3 : (k / (S / 16) + 1) * (S / 16) = S / 16 * (k / (S / 16)) + S / 16 := by ring
        simp only [endOf, numConnections]
        rw [if_neg (by omega)]
        omega
    · refine ⟨15, by omega, ?_, ?_⟩
      · simp only [startOf, numConnections]
        exact (Nat.le_div_iff_mul_le (show 0 < S / 16 by omega)).mp (by omega)
      · simp only [endOf, numConnections, if_true]
        omega
  · intro i j hij hj
    simp only [endOf, startOf, numConnections]
    rw [if_neg (by omega)]
    have h1 : (i + 1) * (S / 16) ≤ j * (S / 16) := Nat.mul_le_mul_right _ (by omega)
    have h2 : 1 ≤ (i + 1) * (S / 16) := Nat.one_le_iff_ne_zero.mpr (by positivity)
    omega

/-- Witness for C5 at the concrete size 10485761 = 10 MiB + 1. -/
theorem c5_chunk_plan_witness :
    10 * 1024 * 1024 < 10485761 ∧ parallelChunks 10485761 =
      (List.range 16).map (fun i => (i, startOf 10485761 i, endOf 10485761 i)) :=
  ⟨by norm_num, (c5_chunk_plan 10485761 (by norm_num)).1⟩

/-- The bytes a range-honoring server returns for `Range: bytes=a-b` over a
remote file with content `remote`. -/
def rangeBytes (remote : List Nat) (a b : Nat) : List Nat :=
  (remote.drop a).take (b - a + 1)

/-- Current content of a file (empty for a missing file; used for append
mode, whose call sites guarantee existence). -/
def currentBytes (fs : FS) (p : String) : List Nat :=
  match fs p with
  | some f => f.bytes
  | none => []

/-- The retry loop of `download_chunk` (lines 478-528): at each attempt request
`Range: bytes={start+resume_pos}-{end}`; on a rejected status or request
exception (`serve _ _ = none`) retry; otherwise append (resume_pos > 0) or
write from scratch, then re-check the final size: equal means success, smaller
updates the resume position and retries, larger deletes the chunk file and
restarts from zero.  Returns (success, filesystem, the ranges requested). -/
def download_chunk_loop (serve : Nat → Nat → Option (List Nat)) (start e : Nat)
    (chunk_file : String) (now : ℚ) :
    Nat → Nat → FS → List (Nat × Nat) → Bool × FS × List (Nat × Nat)
  | 0, _, fs, log => (false, fs, log)
  | fuel + 1, resumePos, fs, log =>
    let chunk_size_expected := e - start + 1
    let actual_start := start + resumePos
    match serve actual_start e with
    | none =>
        download_chunk_loop serve start e chunk_file now fuel resumePos fs
          (log ++ [(actual_start, e)])
    | some body =>
        let oldBytes := if 0 < resumePos then currentBytes fs chunk_file else []
        let newBytes := oldBytes ++ body
        let fs1 := fs.set chunk_file ⟨newBytes, now⟩
        if newBytes.length = chunk_size_expected then
          (true, fs1, log ++ [(actual_start, e)])
        else if newBytes.length < chunk_size_expected then
          download_chunk_loop serve start e chunk_file now fuel newBytes.length fs1
            (log ++ [(actual_start, e)])
        else
          download_chunk_loop serve start e chunk_file now fuel 0 (fs1.rm chunk_file)
            (log ++ [(actual_start, e)])

/-- Model of `RobustDownloader.download_chunk` (lines 452-528): the pre-flight check on
an existing chunk file (exact size: already complete, no request; larger:
corrupt, delete and restart from zero; smaller: valid partial, resume from its
length), followed by the retry loop. -/
def download_chunk (fs : FS) (serve : Nat → Nat → Option (List Nat)) (start e : Nat)
    (filepath : String) (chunk_id : Nat) (now : ℚ) : Bool × FS × List (Nat × Nat) :=
  let chunk_file := partName filepath chunk_id
  let chunk_size_expected := e - start + 1
  match fs chunk_file with
  | some f =>
    if f.bytes.length = chunk_size_expected then
      (true, fs, [])
    else if chunk_size_expected < f.bytes.length then
      download_chunk_loop serve start e chunk_file now maxRetries 0 (fs.rm chunk_file) []
    else
      download_chunk_loop serve start e chunk_file now maxRetries f.bytes.length fs []
  | none => download_chunk_loop serve start e chunk_file now maxRetries 0 fs []

theorem rangeBytes_length (remote : List Nat) (a b : Nat) (hab : a ≤ b)
    (hb : b < remote.length) : (rangeBytes remote a b).length = b - a + 1 := by
  simp [rangeBytes]
  omega

theorem rangeBytes_drop (remote : List Nat) (a b L : Nat) (hL : L ≤ b - a) :
    (rangeBytes remote a b).drop L = rangeBytes remote (a + L) b := by
  unfold rangeBytes
  rw [List.drop_take, List.drop_drop]
  congr 1
  omega

theorem download_chunk_loop_success (remote : List Nat) (serve : Nat → Nat → Option (List Nat))
    (start e : Nat) (chunk_file : String) (now : ℚ) (fuel L : Nat) (fs : FS)
    (log : List (Nat × Nat))
    (hserve : ∀ a b, serve a b = some (rangeBytes remote a b))
    (hse : start ≤ e) (he : e < remote.length)
    (hL : L < e - start + 1)
    (hold : 0 < L → currentBytes fs chunk_file = (rangeBytes remote start e).take L) :
    download_chunk_loop serve start e chunk_file now (fuel + 1) L fs log =
      (true, fs.set chunk_file ⟨rangeBytes remote start e, now⟩, log ++ [(start + L, e)]) := by
  have hr : rangeBytes remote (start + L) e = (rangeBytes remote start e).drop L :=
    (rangeBytes_drop remote start e L (by omega)).symm
  have hnew : (if 0 < L then currentBytes fs chunk_file else []) ++
      rangeBytes remote (start + L) e = rangeBytes remote start e := by
    by_cases h0 : 0 < L
    · rw [if_pos h0, hold h0, hr, List.take_append_drop]
    · have hL0 : L = 0 := by omega
      subst hL0
      simp
  simp only [download_chunk_loop, hserve]
  rw [hnew, rangeBytes_length remote start e hse he]
  simp

theorem download_chunk_loop_frame (serve : Nat → Nat → Option (List Nat)) (start e : Nat)
    (chunk_file : String) (now : ℚ) :
    ∀ fuel L (fs : FS) log q, q ≠ chunk_file →
      (download_chunk_loop serve start e chunk_file now fuel L fs log).2.1 q = fs q := by
  intro fuel
  induction fuel with
  | zero =>
    intro L fs log q hq
    simp [download_chunk_loop]
  | succ n ih =>
    intro L fs log q hq
    simp only [download_chunk_loop]
    cases hs : serve (start + L) e with
    | none => exact ih _ _ _ _ hq
    | some body =>
      dsimp only
      generalize (if 0 < L then currentBytes fs chunk_file else []) = old
      split
      · simp [FS.set, hq]
      · split
        · rw [ih _ _ _ _ hq]
          simp [FS.set, hq]
        · rw [ih _ _ _ _ hq]
          simp [FS.rm, FS.set, hq]

theorem download_chunk_loop_fail (serve : Nat → Nat → Option (List Nat)) (start e : Nat)
    (chunk_file : String) (now : ℚ) (hserve : ∀ a b, serve a b = none) :
    ∀ fuel L (fs : FS) log,
      (download_chunk_loop serve start e chunk_file now fuel L fs log).1 = false ∧
      (download_chunk_loop serve start e chunk_file now fuel L fs log).2.1 = fs := by
  intro fuel
  induction fuel with
  | zero =>
    intro L fs log
    simp [download_chunk_loop]
  | succ n ih =>
    intro L fs log
    simp only [download_chunk_loop, hserve]
    exact ih _ _ _

/-- C4: for every `download_chunk(url, start, end, filepath, chunk_id)` call
with expected size end - start + 1 against a range-honoring server: an existing
chunk file of exactly the expected size yields an immediate success with no
request; a larger chunk file is deleted and the download restarts from offset 0
(a single request for the full range); a smaller chunk file holding a prefix of
the range content resumes with a request from start + existing_size to end and
appends, so that a truncated chunk file is completed byte-identical to a full
fresh download of the range. -/
theorem c4_chunk_resume (fs : FS) (serve : Nat → Nat → Option (List Nat))
    (remote : List Nat) (start e : Nat) (filepath : String) (chunk_id : Nat) (now : ℚ)
    (hserve : ∀ a b, serve a b = some (rangeBytes remote a b))
    (hse : start ≤ e) (he : e < remote.length) :
    (∀ f, fs (partName filepath chunk_id) = some f →
      f.bytes.length = e - start + 1 →
      download_chunk fs serve start e filepath chunk_id now = (true, fs, [])) ∧
    (∀ f, fs (partName filepath chunk_id) = some f →
      e - start + 1 < f.bytes.length →
      (download_chunk fs serve start e filepath chunk_id now).1 = true ∧
      (download_chunk fs serve start e filepath chunk_id now).2.1 (partName filepath chunk_id) =
        some ⟨rangeBytes remote start e, now⟩ ∧
      (∀ q, q ≠ partName filepath chunk_id →
        (download_chunk fs serve start e filepath chunk_id now).2.1 q = fs q) ∧
      (download_chunk fs serve start e filepath chunk_id now).2.2 = [(start, e)]) ∧
    (∀ f L, fs (partName filepath chunk_id) = some f →
      f.bytes = (rangeBytes remote start e).take L → L < e - start + 1 →
      (download_chunk fs serve start e filepath chunk_id now).1 = true ∧
      (download_chunk fs serve start e filepath chunk_id now).2.1 (partName filepath chunk_id) =
        some ⟨rangeBytes remote start e, now⟩ ∧
      (∀ q, q ≠ partName filepath chunk_id →
        (download_chunk fs serve start e filepath chunk_id now).2.1 q = fs q) ∧
      (download_chunk fs serve start e filepath chunk_id now).2.2 = [(start + L, e)]) ∧
    (fs (partName filepath chunk_id) = none →
      (download_chunk fs serve start e filepath chunk_id now).1 = true ∧
      (download_chunk fs serve start e filepath chunk_id now).2.1 (partName filepath chunk_id) =
        some ⟨rangeBytes remote start e, now⟩ ∧
      (∀ q, q ≠ partName filepath chunk_id →
        (download_chunk fs serve start e filepath chunk_id now).2.1 q = fs q) ∧
      (download_chunk fs serve start e filepath chunk_id now).2.2 = [(start, e)]) := by
  have hmax : maxRetries = 4 + 1 := rfl
  have hrlen := rangeBytes_length remote start e hse he
  refine ⟨?_, ?_, ?_, ?_⟩
  · intro f hf hlen
    simp [download_chunk, hf, hlen]
  · intro f hf hlen
    have hres : download_chunk fs serve start e filepath chunk_id now =
        (true, (fs.rm (partName filepath chunk_id)).set (partName filepath chunk_id)
          ⟨rangeBytes remote start e, now⟩, [(start, e)]) := by
      simp only [download_chunk, hf]
      rw [if_neg (by omega), if_pos hlen, hmax]
      rw [download_chunk_loop_success remote serve start e _ now 4 0 _ []
        hserve hse he (by omega) (by omega)]
      simp
    rw [hres]
    refine ⟨rfl, by simp [FS.set], ?_, rfl⟩
    intro q hq
    simp [FS.set, FS.rm, hq]
  · intro f L hf hbytes hL
    have hlen : f.bytes.length = L := by
      rw [hbytes]
      simp
      omega
    have hres : download_chunk fs serve start e filepath chunk_id now =
        (true, fs.set (partName filepath chunk_id) ⟨rangeBytes remote start e, now⟩,
          [(start + L, e)]) := by
      simp only [download_chunk, hf]
      rw [if_neg (by omega), if_neg (by omega), hmax, hlen]
      rw [download_chunk_loop_success remote serve start e _ now 4 L fs []
        hserve hse he hL (fun _ => by simp [currentBytes, hf, hbytes])]
      simp
    rw [hres]
    refine ⟨rfl, by simp [FS.set], ?_, rfl⟩
    intro q hq
    simp [FS.set, hq]
  · intro hf
    have hres : download_chunk fs serve start e filepath chunk_id now =
        (true, fs.set (partName filepath chunk_id) ⟨rangeBytes remote start e, now⟩,
          [(start, e)]) := by
      simp only [download_chunk, hf]
      rw [hmax]
      rw [download_chunk_loop_success remote serve start e _ now 4 0 fs []
        hserve hse he (by omega) (by omega)]
      simp
    rw [hres]
    refine ⟨rfl, by simp [FS.set], ?_, rfl⟩
    intro q hq
    simp [FS.set, hq]

/-- Witness for C4: a chunk file holding the 2-byte prefix of range [1,4] of a
6-byte remote file is completed by one request for bytes 3-4 and ends
byte-identical to the full range. -/
theorem c4_chunk_resume_witness :
    (download_chunk (fun p => if p = partName "f" 0 then some ⟨[1, 2], 0⟩ else none)
        (fun a b => some (rangeBytes [0, 1, 2, 3, 4, 5] a b)) 1 4 "f" 0 0).1 = true ∧
    (download_chunk (fun p => if p = partName "f" 0 then some ⟨[1, 2], 0⟩ else none)
        (fun a b => some (rangeBytes [0, 1, 2, 3, 4, 5] a b)) 1 4 "f" 0 0).2.1
        (partName "f" 0) = some ⟨rangeBytes [0, 1, 2, 3, 4, 5] 1 4, 0⟩ ∧
    (∀ q, q ≠ partName "f" 0 →
      (download_chunk (fun p => if p = partName "f" 0 then some ⟨[1, 2], 0⟩ else none)
          (fun a b => some (rangeBytes [0, 1, 2, 3, 4, 5] a b)) 1 4 "f" 0 0).2.1 q =
        (fun p => if p = partName "f" 0 then some (⟨[1, 2], 0⟩ : File) else none) q) ∧
    (download_chunk (fun p => if p = partName "f" 0 then some ⟨[1, 2], 0⟩ else none)
        (fun a b => some (rangeBytes [0, 1, 2, 3, 4, 5] a b)) 1 4 "f" 0 0).2.2 =
      [(1 + 2, 4)] :=
  (c4_chunk_resume (fun p => if p = partName "f" 0 then some ⟨[1, 2], 0⟩ else none)
      (fun a b => some (rangeBytes [0, 1, 2, 3, 4, 5] a b)) [0, 1, 2, 3, 4, 5] 1 4 "f" 0 0
      (fun _ _ => rfl) (by norm_num) (by norm_num)).2.2.1
    ⟨[1, 2], 0⟩ 2 (by simp) (by decide) (by norm_num)

/-- The buffered per-chunk copy loop of `merge_chunks` (lines 562-584): read up
to `buffer_size` bytes at a time while `bytes_copied < chunk_size` (the
recorded file size, which equals `bytes.length`), breaking on a short read.
The fuel argument bounds the iteration count (each iteration advances by at
least one byte, so `bytes.length` fuel suffices). -/
def readFileLoop (bytes : List Nat) (buffer_size : Nat) : Nat → Nat → List Nat
  | _, 0 => []
  | pos, fuel + 1 =>
    if pos < bytes.length then
      let to_read := min buffer_size (bytes.length - pos)
      (bytes.drop pos).take to_read ++ readFileLoop bytes buffer_size (pos + to_read) fuel
    else []

/-- The `shutil.copyfileobj` loop of `merge_chunks_optimized` (line 640): read
up to `buffer_size` bytes at a time until a read returns nothing. -/
def copyfileobjLoop (bytes : List Nat) (buffer_size : Nat) : Nat → Nat → List Nat
  | _, 0 => []
  | pos, fuel + 1 =>
    let data := (bytes.drop pos).take buffer_size
    if data.isEmpty then []
    else data ++ copyfileobjLoop bytes buffer_size (pos + data.length) fuel

theorem readFileLoop_eq_drop (bytes : List Nat) (buffer_size : Nat)
    (hb : 1 ≤ buffer_size) :
    ∀ fuel pos, bytes.length ≤ pos + fuel →
      readFileLoop bytes buffer_size pos fuel = bytes.drop pos := by
  intro fuel
  induction fuel with
  | zero =>
    intro pos hp
    rw [readFileLoop, List.drop_eq_nil_of_le (by omega)]
  | succ n ih =>
    intro pos hp
    rw [readFileLoop]
    by_cases h : pos < bytes.length
    · rw [if_pos h]
      dsimp only
      rw [ih (pos + min buffer_size (bytes.length - pos)) (by omega)]
      have h2 : bytes.drop (pos + min buffer_size (bytes.length - pos)) =
          (bytes.drop pos).drop (min buffer_size (bytes.length - pos)) := by
        rw [List.drop_drop]
      rw [h2, List.take_append_drop]
    · rw [if_neg h, List.drop_eq_nil_of_le (by omega)]

theorem copyfileobjLoop_eq_drop (bytes : List Nat) (buffer_size : Nat)
    (hb : 1 ≤ buffer_size) :
    ∀ fuel pos, bytes.length ≤ pos + fuel →
      copyfileobjLoop bytes buffer_size pos fuel = bytes.drop pos := by
  intro fuel
  induction fuel with
  | zero =>
    intro pos hp
    rw [copyfileobjLoop, List.drop_eq_nil_of_le (by omega)]
  | succ n ih =>
    intro pos hp
    rw [copyfileobjLoop]
    by_cases h : pos < bytes.length
    · have hlen : ((bytes.drop pos).take buffer_size).length =
          min buffer_size (bytes.length - pos) := by simp
      have hne : ¬ ((bytes.drop pos).take buffer_size).isEmpty = true := by
        rw [List.isEmpty_iff]
        intro hnil
        have hl := congrArg List.length hnil
        rw [hlen] at hl
        simp at hl
        omega
      rw [if_neg hne, hlen, ih (pos + min buffer_size (bytes.length - pos)) (by omega)]
      have h2 : bytes.drop (pos + min buffer_size (bytes.length - pos)) =
          (bytes.drop pos).drop (min buffer_size (bytes.length - pos)) := by
        rw [List.drop_drop]
      have h3 : (bytes.drop pos).take buffer_size =
          (bytes.drop pos).take (min buffer_size (bytes.length - pos)) := by
        rw [List.take_eq_take]
        simp
      rw [h2, h3, List.take_append_drop]
    · have hdrop : bytes.drop pos = [] := List.drop_eq_nil_of_le (by omega)
      rw [if_pos (by rw [hdrop]; simp), hdrop]

/-- An injected I/O exception point inside the `try` block of
`merge_chunks` / `merge_chunks_optimized`: `noFault` (normal run),
`duringWrite k` (an exception raised once `k` bytes have been written to the
temporary file, modelling a read/write error while concatenating),
`atRemoveDest` (an exception raised by `os.remove(filepath)`), and `atRename`
(an exception raised by `os.rename(temp_file, filepath)`). -/
inductive MergeFault where
  | noFault
  | duringWrite (afterBytes : Nat)
  | atRemoveDest
  | atRename
deriving DecidableEq

/-- The chunk-scan loop of `merge_chunks` (lines 538-547): check each expected
chunk file exists and collect its content in index order; `none` when any
chunk is missing. -/
def collectChunks (fs : FS) (filepath : String) : List Nat → Option (List (List Nat))
  | [] => some []
  | i :: rest =>
    match fs (partName filepath i) with
    | none => none
    | some f =>
      match collectChunks fs filepath rest with
      | none => none
      | some l => some (f.bytes :: l)

/-- The chunk-cleanup loop after a successful merge (lines 600-604 / 655-659):
remove each chunk file, ignoring errors. -/
def removeParts (fs : FS) (filepath : String) : List Nat → FS
  | [] => fs
  | i :: rest => removeParts (fs.rm (partName filepath i)) filepath rest

/-- The replace-target phase shared verbatim by `merge_chunks` (lines 594-616)
and `merge_chunks_optimized` (lines 649-671): remove a pre-existing
destination, rename the temporary file onto it, delete the chunk files; on an
injected exception the `except` handler deletes the temporary file and reports
failure.  `fs1` already holds the fully written temporary file. -/
def mergeReplacePhase (fs1 : FS) (filepath tmp : String) (numChunks : Nat)
    (outBytes : List Nat) (fault : MergeFault) (now : ℚ) : Bool × FS :=
  if fault = MergeFault.atRemoveDest ∧ (fs1 filepath).isSome then
    (false, fs1.rm tmp)
  else
    let fs2 := if (fs1 filepath).isSome then fs1.rm filepath else fs1
    if fault = MergeFault.atRename then
      (false, fs2.rm tmp)
    else
      let fs3 := (fs2.rm tmp).set filepath ⟨outBytes, now⟩
      (true, removeParts fs3 filepath (List.range numChunks))

/-- Writing the temporary file and then replacing the destination, with the
`except` handler of `merge_chunks` / `merge_chunks_optimized` (delete the
temporary file, leave chunk files alone, return False) applied at the injected
exception point.  A `duringWrite k` fault with `k < total` leaves a `k`-byte
partial temporary file, which the handler then removes. -/
def replaceAndCleanup (fs : FS) (filepath tmp : String) (numChunks : Nat)
    (outBytes : List Nat) (total : Nat) (fault : MergeFault) (now : ℚ) : Bool × FS :=
  match fault with
  | MergeFault.duringWrite k =>
    if k < total then
      (false, ((fs.set tmp ⟨outBytes.take k, now⟩).rm tmp))
    else
      mergeReplacePhase (fs.set tmp ⟨outBytes, now⟩) filepath tmp numChunks outBytes fault now
  | f => mergeReplacePhase (fs.set tmp ⟨outBytes, now⟩) filepath tmp numChunks outBytes f now

/-- Model of `RobustDownloader.merge_chunks_optimized` (lines 618-671): concatenate the
collected chunk contents into the temporary file with `shutil.copyfileobj` and
a 128 MiB buffer, then replace the destination and clean up. -/
def merge_chunks_optimized (fs : FS) (filepath : String) (cs : List (List Nat))
    (total : Nat) (tmp : String) (numChunks : Nat) (fault : MergeFault) (now : ℚ) :
    Bool × FS :=
  let outBytes := (cs.map (fun b => copyfileobjLoop b (128 * 1024 * 1024) 0 b.length)).flatten
  replaceAndCleanup fs filepath tmp numChunks outBytes total fault now

/-- Model of `RobustDownloader.merge_chunks` (lines 532-616): verify all chunk files
exist (missing chunk: immediate failure, filesystem untouched), dispatch to the
optimized path for totals over 1 GiB, otherwise buffered 64 MiB copy into the
temporary file, then replace the destination and clean up. -/
def merge_chunks (fs : FS) (filepath : String) (numChunks : Nat) (fault : MergeFault)
    (now : ℚ) : Bool × FS :=
  let tmp := tmpName filepath
  match collectChunks fs filepath (List.range numChunks) with
  | none => (false, fs)
  | some cs =>
    let total := (cs.map List.length).sum
    if 1024 * 1024 * 1024 < total then
      merge_chunks_optimized fs filepath cs total tmp numChunks fault now
    else
      let outBytes := (cs.map (fun b => readFileLoop b (64 * 1024 * 1024) 0 b.length)).flatten
      replaceAndCleanup fs filepath tmp numChunks outBytes total fault now

theorem collectChunks_some (fs : FS) (filepath : String) (g : Nat → File) :
    ∀ l : List Nat, (∀ i ∈ l, fs (partName filepath i) = some (g i)) →
      collectChunks fs filepath l = some (l.map (fun i => (g i).bytes)) := by
  intro l
  induction l with
  | nil => intro _; rfl
  | cons i rest ih =>
    intro h
    simp only [collectChunks, h i (List.mem_cons_self _ _),
      ih (fun j hj => h j (List.mem_cons_of_mem _ hj)), List.map_cons]

theorem collectChunks_missing (fs : FS) (filepath : String) :
    ∀ (l : List Nat) (i : Nat), i ∈ l → fs (partName filepath i) = none →
      collectChunks fs filepath l = none := by
  intro l
  induction l with
  | nil => intro i hi; cases hi
  | cons j rest ih =>
    intro i hi hnone
    rcases List.mem_cons.mp hi with h | h
    · subst h
      simp [collectChunks, hnone]
    · simp only [collectChunks]
      cases hj : fs (partName filepath j) with
      | none => rfl
      | some f => rw [ih i h hnone]

theorem removeParts_preserve (filepath q : String) :
    ∀ (l : List Nat) (fs : FS), (∀ i ∈ l, q ≠ partName filepath i) →
      removeParts fs filepath l q = fs q := by
  intro l
  induction l with
  | nil => intro fs _; rfl
  | cons i rest ih =>
    intro fs hq
    rw [removeParts, ih _ (fun j hj => hq j (List.mem_cons_of_mem _ hj))]
    exact FS.rm_ne fs _ q (hq i (List.mem_cons_self _ _))

theorem mergeReplacePhase_success (fs1 : FS) (filepath tmp : String) (n : Nat)
    (outBytes : List Nat) (now : ℚ) (fault : MergeFault)
    (hf1 : ¬(fault = MergeFault.atRemoveDest ∧ (fs1 filepath).isSome = true))
    (hf2 : ¬fault = MergeFault.atRename) :
    (mergeReplacePhase fs1 filepath tmp n outBytes fault now).1 = true ∧
    (mergeReplacePhase fs1 filepath tmp n outBytes fault now).2 filepath =
      some ⟨outBytes, now⟩ := by
  simp only [mergeReplacePhase]
  rw [if_neg hf1, if_neg hf2]
  refine ⟨rfl, ?_⟩
  dsimp only
  rw [removeParts_preserve filepath filepath (List.range n) _
    (fun i _ => (partName_ne_filepath filepath i).symm)]
  exact FS.set_self _ _ _

/-- C2: for every chunk count N >= 1 and every set of on-disk chunk files
part0..part(N-1) with arbitrary byte contents, a `merge_chunks(filepath, N)`
call (no injected fault) returns true and leaves at `filepath` exactly the
concatenation of the chunk files' bytes in index order 0..N-1; the proof covers
both the buffered path (total <= 1 GiB) and the optimized large-file path
(total > 1 GiB) by cases on the dispatch condition. -/
theorem c2_merge_concat (fs : FS) (filepath : String) (n : Nat) (g : Nat → File) (now : ℚ)
    (hn : 1 ≤ n)
    (hparts : ∀ i, i < n → fs (partName filepath i) = some (g i)) :
    (merge_chunks fs filepath n MergeFault.noFault now).1 = true ∧
    ((merge_chunks fs filepath n MergeFault.noFault now).2 filepath).map File.bytes =
      some (((List.range n).map (fun i => (g i).bytes)).flatten) := by
  have hc := collectChunks_some fs filepath g (List.range n)
    (fun i hi => hparts i (List.mem_range.mp hi))
  have hmapR : ((List.range n).map (fun i => (g i).bytes)).map
      (fun b => readFileLoop b (64 * 1024 * 1024) 0 b.length) =
      (List.range n).map (fun i => (g i).bytes) := by
    generalize (List.range n).map (fun i => (g i).bytes) = cs
    induction cs with
    | nil => rfl
    | cons hd tl ih =>
      rw [List.map_cons, ih,
        readFileLoop_eq_drop hd (64 * 1024 * 1024) (by norm_num) hd.length 0 (by omega),
        List.drop_zero]
  have hmapO : ((List.range n).map (fun i => (g i).bytes)).map
      (fun b => copyfileobjLoop b (128 * 1024 * 1024) 0 b.length) =
      (List.range n).map (fun i => (g i).bytes) := by
    generalize (List.range n).map (fun i => (g i).bytes) = cs
    induction cs with
    | nil => rfl
    | cons hd tl ih =>
      rw [List.map_cons, ih,
        copyfileobjLoop_eq_drop hd (128 * 1024 * 1024) (by norm_num) hd.length 0 (by omega),
        List.drop_zero]
  simp only [merge_chunks, hc]
  by_cases ht : 1024 * 1024 * 1024 <
      (((List.range n).map (fun i => (g i).bytes)).map List.length).sum
  · rw [if_pos ht]
    simp only [merge_chunks_optimized, hmapO, replaceAndCleanup]
    have hs := mergeReplacePhase_success
      (fs.set (tmpName filepath) ⟨((List.range n).map (fun i => (g i).bytes)).flatten, now⟩)
      filepath (tmpName filepath) n (((List.range n).map (fun i => (g i).bytes)).flatten)
      now MergeFault.noFault (by simp) (by simp)
    exact ⟨hs.1, by rw [hs.2]; rfl⟩
  · rw [if_neg ht]
    simp only [hmapR, replaceAndCleanup]
    have hs := mergeReplacePhase_success
      (fs.set (tmpName filepath) ⟨((List.range n).map (fun i => (g i).bytes)).flatten, now⟩)
      filepath (tmpName filepath) n (((List.range n).map (fun i => (g i).bytes)).flatten)
      now MergeFault.noFault (by simp) (by simp)
    exact ⟨hs.1, by rw [hs.2]; rfl⟩

/-- Witness for C2 with two chunk files [1, 2] and [3]: the merged file is
[1, 2, 3]. -/
theorem c2_merge_concat_witness :
    (merge_chunks
        (fun p => if p = partName "f" 0 then some ⟨[1, 2], 0⟩
          else if p = partName "f" 1 then some ⟨[3], 0⟩ else none)
        "f" 2 MergeFault.noFault 0).1 = true ∧
    ((merge_chunks
        (fun p => if p = partName "f" 0 then some ⟨[1, 2], 0⟩
          else if p = partName "f" 1 then some ⟨[3], 0⟩ else none)
        "f" 2 MergeFault.noFault 0).2 "f").map File.bytes =
      some (((List.range 2).map
        (fun i => ((if i = 0 then (⟨[1, 2], 0⟩ : File) else ⟨[3], 0⟩) : File).bytes)).flatten) :=
  c2_merge_concat
    (fun p => if p = partName "f" 0 then some ⟨[1, 2], 0⟩
      else if p = partName "f" 1 then some ⟨[3], 0⟩ else none)
    "f" 2 (fun i => if i = 0 then ⟨[1, 2], 0⟩ else ⟨[3], 0⟩) 0 (by norm_num)
    (by decide)

/-- Counterexample for C7: with chunk file part0 = [1] present and a
pre-existing destination file at "f", an exception at the
`os.rename(temp_file, filepath)` step (which sits inside the `try` block of
`merge_chunks`, after `os.remove(filepath)` has already deleted the
destination) returns false but does NOT leave the pre-existing destination
file untouched: the destination is gone. -/
theorem c7_counterexample :
    (merge_chunks
        (fun p => if p = "f" then some ⟨[9], 0⟩
          else if p = partName "f" 0 then some ⟨[1], 0⟩ else none)
        "f" 1 MergeFault.atRename 0).1 = false ∧
    ¬ ((merge_chunks
        (fun p => if p = "f" then some ⟨[9], 0⟩
          else if p = partName "f" 0 then some ⟨[1], 0⟩ else none)
        "f" 1 MergeFault.atRename 0).2 "f" =
      (fun p => if p = "f" then some (⟨[9], 0⟩ : File)
          else if p = partName "f" 0 then some ⟨[1], 0⟩ else none) "f") := by
  constructor
  · decide
  · decide

/-- C7 (amended): if any expected chunk file is missing, `merge_chunks` returns
false with the filesystem completely untouched.  If an exception occurs while
writing the temporary file (before the destination is removed for
replacement), the temporary file is removed, every other path — chunk files
and any pre-existing destination included — is left untouched, and false is
returned.  If the exception occurs at the final rename after the destination
was removed, false is returned, the temporary file is removed and the chunk
files are left intact, but a pre-existing destination file is lost (it was
already deleted by the remove-then-rename replacement), contrary to the
original claim. -/
theorem c7_merge_failure_amended (fs : FS) (filepath : String) (n : Nat) (now : ℚ) :
    (∀ (fault : MergeFault) (j : Nat), j < n → fs (partName filepath j) = none →
      merge_chunks fs filepath n fault now = (false, fs)) ∧
    (∀ (g : Nat → File) (k : Nat), (∀ i, i < n → fs (partName filepath i) = some (g i)) →
      k < (((List.range n).map (fun i => (g i).bytes)).map List.length).sum →
      (merge_chunks fs filepath n (MergeFault.duringWrite k) now).1 = false ∧
      (merge_chunks fs filepath n (MergeFault.duringWrite k) now).2 (tmpName filepath) = none ∧
      (∀ q, q ≠ tmpName filepath →
        (merge_chunks fs filepath n (MergeFault.duringWrite k) now).2 q = fs q)) ∧
    (∀ (g : Nat → File) (d : File), (∀ i, i < n → fs (partName filepath i) = some (g i)) →
      fs filepath = some d →
      (merge_chunks fs filepath n MergeFault.atRename now).1 = false ∧
      (merge_chunks fs filepath n MergeFault.atRename now).2 filepath = none ∧
      (merge_chunks fs filepath n MergeFault.atRename now).2 (tmpName filepath) = none ∧
      (∀ i, i < n → (merge_chunks fs filepath n MergeFault.atRename now).2
        (partName filepath i) = fs (partName filepath i))) := by
  refine ⟨?_, ?_, ?_⟩
  · intro fault j hj hnone
    have hc := collectChunks_missing fs filepath (List.range n) j (List.mem_range.mpr hj) hnone
    simp [merge_chunks, hc]
  · intro g k hparts hk
    have hc := collectChunks_some fs filepath g (List.range n)
      (fun i hi => hparts i (List.mem_range.mp hi))
    simp only [merge_chunks, hc]
    by_cases ht : 1024 * 1024 * 1024 <
        (((List.range n).map (fun i => (g i).bytes)).map List.length).sum
    · rw [if_pos ht]
      simp only [merge_chunks_optimized, replaceAndCleanup]
      rw [if_pos hk]
      refine ⟨rfl, by simp [FS.rm], ?_⟩
      intro q hq
      simp [FS.rm, FS.set, hq]
    · rw [if_neg ht]
      simp only [replaceAndCleanup]
      rw [if_pos hk]
      refine ⟨rfl, by simp [FS.rm], ?_⟩
      intro q hq
      simp [FS.rm, FS.set, hq]
  · intro g d hparts hd
    have hc := collectChunks_some fs filepath g (List.range n)
      (fun i hi => hparts i (List.mem_range.mp hi))
    have hfp : filepath ≠ tmpName filepath := (tmpName_ne_filepath filepath).symm
    have hmain : ∀ outBytes : List Nat,
        (mergeReplacePhase (fs.set (tmpName filepath) ⟨outBytes, now⟩) filepath
          (tmpName filepath) n outBytes MergeFault.atRename now).1 = false ∧
        (mergeReplacePhase (fs.set (tmpName filepath) ⟨outBytes, now⟩) filepath
          (tmpName filepath) n outBytes MergeFault.atRename now).2 filepath = none ∧
        (mergeReplacePhase (fs.set (tmpName filepath) ⟨outBytes, now⟩) filepath
          (tmpName filepath) n outBytes MergeFault.atRename now).2 (tmpName filepath) = none ∧
        (∀ i, i < n → (mergeReplacePhase (fs.set (tmpName filepath) ⟨outBytes, now⟩) filepath
          (tmpName filepath) n outBytes MergeFault.atRename now).2
            (partName filepath i) = fs (partName filepath i)) := by
      intro outBytes
      have h1 : (fs.set (tmpName filepath) ⟨outBytes, now⟩) filepath = some d := by
        rw [FS.set_ne _ _ _ _ hfp]
        exact hd
      simp only [mergeReplacePhase]
      rw [if_neg (by simp), if_pos trivial, h1]
      simp only [Option.isSome_some]
      rw [if_pos trivial]
      refine ⟨trivial, ?_, by simp [FS.rm], ?_⟩
      · rw [FS.rm_ne _ _ _ hfp, FS.rm_self]
      · intro i hi
        rw [FS.rm_ne _ _ _ (partName_ne_tmpName filepath i),
          FS.rm_ne _ _ _ (partName_ne_filepath filepath i),
          FS.set_ne _ _ _ _ (partName_ne_tmpName filepath i)]
    simp only [merge_chunks, hc]
    by_cases ht : 1024 * 1024 * 1024 <
        (((List.range n).map (fun i => (g i).bytes)).map List.length).sum
    · rw [if_pos ht]
      simp only [merge_chunks_optimized, replaceAndCleanup]
      exact hmain _
    · rw [if_neg ht]
      simp only [replaceAndCleanup]
      exact hmain _

/-- Witness for the amended C7: all three cases at concrete one-chunk
instances — missing chunk, write fault, and rename fault. -/
theorem c7_merge_failure_amended_witness :
    (merge_chunks (fun _ => none) "f" 1 MergeFault.noFault 0 = (false, fun _ => none)) ∧
    ((merge_chunks
        (fun p => if p = "f" then some ⟨[9], 0⟩
          else if p = partName "f" 0 then some ⟨[1, 2], 0⟩ else none)
        "f" 1 (MergeFault.duringWrite 1) 0).1 = false ∧
      (merge_chunks
        (fun p => if p = "f" then some ⟨[9], 0⟩
          else if p = partName "f" 0 then some ⟨[1, 2], 0⟩ else none)
        "f" 1 (MergeFault.duringWrite 1) 0).2 (tmpName "f") = none) ∧
    ((merge_chunks
        (fun p => if p = "f" then some ⟨[9], 0⟩
          else if p = partName "f" 0 then some ⟨[1, 2], 0⟩ else none)
        "f" 1 MergeFault.atRename 0).1 = false ∧
      (merge_chunks
        (fun p => if p = "f" then some ⟨[9], 0⟩
          else if p = partName "f" 0 then some ⟨[1, 2], 0⟩ else none)
        "f" 1 MergeFault.atRename 0).2 "f" = none) := by
  refine ⟨?_, ?_, ?_⟩
  · exact (c7_merge_failure_amended (fun _ => none) "f" 1 0).1 MergeFault.noFault 0
      (by norm_num) rfl
  · have h := (c7_merge_failure_amended
      (fun p => if p = "f" then some ⟨[9], 0⟩
        else if p = partName "f" 0 then some ⟨[1, 2], 0⟩ else none)
      "f" 1 0).2.1 (fun _ => ⟨[1, 2], 0⟩) 1 (by decide) (by decide)
    exact ⟨h.1, h.2.1⟩
  · have h := (c7_merge_failure_amended
      (fun p => if p = "f" then some ⟨[9], 0⟩
        else if p = partName "f" 0 then some ⟨[1, 2], 0⟩ else none)
      "f" 1 0).2.2 (fun _ => ⟨[1, 2], 0⟩) ⟨[9], 0⟩ (by decide) (by decide)
    exact ⟨h.1, h.2.1⟩

/-- The completeness test `download_parallel` applies to a chunk both when
skipping already-complete chunks before submission (lines 886-887) and when
re-verifying every chunk before merging (lines 961-970): the chunk file exists
and its size equals `end - start + 1`. -/
def chunkComplete (fs : FS) (filepath : String) (t : Nat × Nat × Nat) : Bool :=
  match fs (partName filepath t.1) with
  | some f => decide (f.bytes.length = t.2.2 - t.2.1 + 1)
  | none => false

/-- The worker pool of `download_parallel` (lines 878-950): each incomplete
chunk range is handed to `download_chunk`; failures are collected.  Chunk
workers touch only their own chunk file (pairwise distinct paths), so the
concurrent execution is modelled as a fold in submission order.  Returns the
resulting filesystem, the list of failed chunk ids, and the number of HTTP
requests issued. -/
def runChunks (serve : Nat → Nat → Nat → Option (List Nat)) (filepath : String) (now : ℚ) :
    List (Nat × Nat × Nat) → FS → FS × List Nat × Nat
  | [], fs => (fs, [], 0)
  | (i, s, e) :: rest, fs =>
    let r := download_chunk fs (serve i) s e filepath i now
    let rec' := runChunks serve filepath now rest r.2.1
    (rec'.1, (if r.1 then rec'.2.1 else i :: rec'.2.1), r.2.2.length + rec'.2.2)

/-- The merge-and-verify tail of `download_parallel` (lines 899-911 and
974-989): merge the chunks and check the final size against the expected total;
on a size mismatch delete the output and fail. -/
def mergeAndVerify (fs : FS) (filepath : String) (file_size : Nat) (now : ℚ) : Bool × FS :=
  let m := merge_chunks fs filepath numConnections MergeFault.noFault now
  if m.1 then
    if FS.size m.2 filepath = file_size then (true, m.2)
    else (false, m.2.rm filepath)
  else (false, m.2)

/-- Model of `RobustDownloader.download_parallel` (lines 833-992): build the 16-range
chunk plan, skip chunks whose files are already complete, run the rest, abort
(before any merge) if any chunk failed or is missing/short, else merge and
verify the final size.  Returns (success, filesystem, request count). -/
def download_parallel (fs : FS) (serve : Nat → Nat → Nat → Option (List Nat))
    (filepath : String) (file_size : Nat) (now : ℚ) : Bool × FS × Nat :=
  let chunks := parallelChunks file_size
  let toRun := chunks.filter (fun t => !(chunkComplete fs filepath t))
  if toRun.isEmpty then
    let m := mergeAndVerify fs filepath file_size now
    (m.1, m.2, 0)
  else
    let r := runChunks serve filepath now toRun fs
    if !r.2.1.isEmpty then (false, r.1, r.2.2)
    else if chunks.all (fun t => chunkComplete r.1 filepath t) then
      let m := mergeAndVerify r.1 filepath file_size now
      (m.1, m.2, r.2.2)
    else (false, r.1, r.2.2)

theorem download_chunk_fresh (fs : FS) (serve : Nat → Nat → Option (List Nat))
    (remote : List Nat) (start e : Nat) (filepath : String) (chunk_id : Nat) (now : ℚ)
    (hserve : ∀ a b, serve a b = some (rangeBytes remote a b))
    (hse : start ≤ e) (he : e < remote.length)
    (hf : fs (partName filepath chunk_id) = none) :
    download_chunk fs serve start e filepath chunk_id now =
      (true, fs.set (partName filepath chunk_id) ⟨rangeBytes remote start e, now⟩,
        [(start, e)]) := by
  simp only [download_chunk, hf]
  rw [show maxRetries = 4 + 1 from rfl]
  rw [download_chunk_loop_success remote serve start e _ now 4 0 fs []
    hserve hse he (by omega) (by omega)]
  simp

theorem runChunks_spec (serve : Nat → Nat → Nat → Option (List Nat)) (filepath : String)
    (now : ℚ) (remote : List Nat) :
    ∀ (l : List (Nat × Nat × Nat)) (fs : FS),
      (∀ t ∈ l, (∀ a b, serve t.1 a b = none) ∨
        ((∀ a b, serve t.1 a b = some (rangeBytes remote a b)) ∧
          t.2.1 ≤ t.2.2 ∧ t.2.2 < remote.length)) →
      (∀ t ∈ l, fs (partName filepath t.1) = none) →
      l.Pairwise (fun a b => partName filepath a.1 ≠ partName filepath b.1) →
      (∀ q, (∀ t ∈ l, q ≠ partName filepath t.1) →
        (runChunks serve filepath now l fs).1 q = fs q) ∧
      (∀ t ∈ l, (∀ a b, serve t.1 a b = none) →
        t.1 ∈ (runChunks serve filepath now l fs).2.1) ∧
      (∀ t ∈ l, (∀ a b, serve t.1 a b = some (rangeBytes remote a b)) →
        t.2.1 ≤ t.2.2 → t.2.2 < remote.length →
        (runChunks serve filepath now l fs).1 (partName filepath t.1) =
          some ⟨rangeBytes remote t.2.1 t.2.2, now⟩) := by
  intro l
  induction l with
  | nil =>
    intro fs _ _ _
    exact ⟨fun q _ => rfl,
      fun t ht _ => absurd ht (List.not_mem_nil t),
      fun t ht _ _ _ => absurd ht (List.not_mem_nil t)⟩
  | cons hd rest ih =>
    obtain ⟨i, s, e⟩ := hd
    intro fs hG hparts hpw
    have hpi : fs (partName filepath i) = none := hparts (i, s, e) (List.mem_cons_self _ _)
    have hpw' := List.pairwise_cons.mp hpw
    rcases hG (i, s, e) (List.mem_cons_self _ _) with hbad | hgood
    · have hfail := download_chunk_loop_fail (serve i) s e (partName filepath i) now hbad
      have hdc0 : (download_chunk fs (serve i) s e filepath i now).1 = false := by
        simp only [download_chunk, hpi]
        exact (hfail maxRetries 0 fs []).1
      have hdcfs : (download_chunk fs (serve i) s e filepath i now).2.1 = fs := by
        simp only [download_chunk, hpi]
        exact (hfail maxRetries 0 fs []).2
      have hih := ih fs (fun t ht => hG t (List.mem_cons_of_mem _ ht))
        (fun t ht => hparts t (List.mem_cons_of_mem _ ht)) hpw'.2
      simp only [runChunks, hdcfs, hdc0, Bool.false_eq_true, if_false]
      refine ⟨?_, ?_, ?_⟩
      · intro q hq
        exact hih.1 q (fun t ht => hq t (List.mem_cons_of_mem _ ht))
      · intro t ht hbad2
        rcases List.mem_cons.mp ht with h | h
        · subst h
          exact List.mem_cons_self _ _
        · exact List.mem_cons_of_mem _ (hih.2.1 t h hbad2)
      · intro t ht hs hle hlt
        rcases List.mem_cons.mp ht with h | h
        · subst h
          exact absurd (hs 0 0) (by rw [hbad 0 0]; intro hcon; cases hcon)
        · exact hih.2.2 t h hs hle hlt
    · have hdc := download_chunk_fresh fs (serve i) remote s e filepath i now
        hgood.1 hgood.2.1 hgood.2.2 hpi
      have hparts1 : ∀ t ∈ rest,
          (fs.set (partName filepath i) ⟨rangeBytes remote s e, now⟩)
            (partName filepath t.1) = none := by
        intro t ht
        rw [FS.set_ne _ _ _ _ (hpw'.1 t ht).symm]
        exact hparts t (List.mem_cons_of_mem _ ht)
      have hih := ih (fs.set (partName filepath i) ⟨rangeBytes remote s e, now⟩)
        (fun t ht => hG t (List.mem_cons_of_mem _ ht)) hparts1 hpw'.2
      simp only [runChunks, hdc]
      refine ⟨?_, ?_, ?_⟩
      · intro q hq
        rw [hih.1 q (fun t ht => hq t (List.mem_cons_of_mem _ ht))]
        exact FS.set_ne _ _ _ _ (hq (i, s, e) (List.mem_cons_self _ _))
      · intro t ht hbad2
        rcases List.mem_cons.mp ht with h | h
        · subst h
          exact absurd (hgood.1 0 0) (by rw [hbad2 0 0]; intro hcon; cases hcon)
        · exact hih.2.1 t h hbad2
      · intro t ht hs hle hlt
        rcases List.mem_cons.mp ht with h | h
        · subst h
          rw [hih.1 (partName filepath (i, s, e).1) (fun t' ht' => hpw'.1 t' ht')]
          exact FS.set_self _ _ _
        · exact hih.2.2 t h hs hle hlt

theorem chunk_bounds (sz : Nat) (hsz : 16 ≤ sz) :
    ∀ j, j < 16 → startOf sz j ≤ endOf sz j ∧ endOf sz j < sz := by
  have hb : 1 ≤ sz / 16 := (Nat.le_div_iff_mul_le (by norm_num)).mpr (by omega)
  have h16 : 16 * (sz / 16) ≤ sz := by
    have := Nat.div_mul_le_self sz 16
    omega
  intro j hj
  by_cases hj15 : j = 15
  · subst hj15
    simp only [startOf, endOf, numConnections, if_true]
    have h1 : 15 * (sz / 16) + sz / 16 = 16 * (sz / 16) := by ring
    omega
  · simp only [startOf, endOf, numConnections]
    rw [if_neg (by omega)]
    have h1 : (j + 1) * (sz / 16) = j * (sz / 16) + sz / 16 := by ring
    have h2 : (j + 1) * (sz / 16) ≤ 16 * (sz / 16) := Nat.mul_le_mul_right _ (by omega)
    omega

/-- C6: for every parallel download in which one chunk fails permanently (its
server always rejects, so its retries are exhausted) while every other chunk's
server honors range requests, `download_parallel` returns false without calling
`merge_chunks`: the destination file entry is unchanged (no merged output is
created), and the chunk files of all other chunks remain on disk, fully
downloaded, for a future resume attempt. -/
theorem c6_failed_chunk_aborts (fs : FS) (serveP : Nat → Nat → Nat → Option (List Nat))
    (filepath : String) (sz : Nat) (remote : List Nat) (now : ℚ) (c : Nat)
    (hsz : 16 ≤ sz) (hrem : remote.length = sz) (hc : c < 16)
    (hfail : ∀ a b, serveP c a b = none)
    (hhon : ∀ j, j < 16 → j ≠ c → ∀ a b, serveP j a b = some (rangeBytes remote a b))
    (hparts : ∀ i, i < 16 → fs (partName filepath i) = none) :
    (download_parallel fs serveP filepath sz now).1 = false ∧
    (download_parallel fs serveP filepath sz now).2.1 filepath = fs filepath ∧
    (∀ j, j < 16 → j ≠ c →
      (download_parallel fs serveP filepath sz now).2.1 (partName filepath j) =
        some ⟨rangeBytes remote (startOf sz j) (endOf sz j), now⟩) := by
  have hbounds := chunk_bounds sz hsz
  have hmem16 : ∀ t ∈ parallelChunks sz, t.1 < 16 ∧ t = (t.1, startOf sz t.1, endOf sz t.1) := by
    intro t ht
    simp only [parallelChunks, numConnections, List.mem_map, List.mem_range] at ht
    obtain ⟨j, hj, rfl⟩ := ht
    exact ⟨hj, rfl⟩
  have hG : ∀ t ∈ parallelChunks sz, (∀ a b, serveP t.1 a b = none) ∨
      ((∀ a b, serveP t.1 a b = some (rangeBytes remote a b)) ∧
        t.2.1 ≤ t.2.2 ∧ t.2.2 < remote.length) := by
    intro t ht
    obtain ⟨hj, hteq⟩ := hmem16 t ht
    by_cases hjc : t.1 = c
    · left
      rw [hjc]
      exact hfail
    · right
      refine ⟨hhon t.1 hj hjc, ?_, ?_⟩
      · rw [hteq]
        exact (hbounds t.1 hj).1
      · rw [hteq, hrem]
        exact (hbounds t.1 hj).2
  have hparts0 : ∀ t ∈ parallelChunks sz, fs (partName filepath t.1) = none :=
    fun t ht => hparts t.1 (hmem16 t ht).1
  have hpw : (parallelChunks sz).Pairwise
      (fun a b => partName filepath a.1 ≠ partName filepath b.1) := by
    unfold parallelChunks
    rw [List.pairwise_map]
    refine ((List.nodup_range numConnections).imp_of_mem ?_)
    intro a b ha hb hab
    exact partName_ne_of_toString_ne filepath a b
      (toString_ne_of_lt16 a (List.mem_range.mp ha) b (List.mem_range.mp hb) hab)
  have spec := runChunks_spec serveP filepath now remote (parallelChunks sz) fs hG hparts0 hpw
  have hcmem : (c, startOf sz c, endOf sz c) ∈ parallelChunks sz := by
    simp only [parallelChunks, numConnections, List.mem_map, List.mem_range]
    exact ⟨c, hc, rfl⟩
  have hmemf : c ∈ (runChunks serveP filepath now (parallelChunks sz) fs).2.1 :=
    spec.2.1 (c, startOf sz c, endOf sz c) hcmem hfail
  have hfilter : (parallelChunks sz).filter (fun t => !(chunkComplete fs filepath t)) =
      parallelChunks sz := by
    apply List.filter_eq_self.mpr
    intro t ht
    simp [chunkComplete, hparts0 t ht]
  have hnotempty : (parallelChunks sz).isEmpty = false := by
    simp [parallelChunks, numConnections]
  have hfailsne : ((runChunks serveP filepath now (parallelChunks sz) fs).2.1).isEmpty =
      false := by
    cases h : (runChunks serveP filepath now (parallelChunks sz) fs).2.1 with
    | nil =>
      rw [h] at hmemf
      cases hmemf
    | cons a l => rfl
  have hres : download_parallel fs serveP filepath sz now =
      (false, (runChunks serveP filepath now (parallelChunks sz) fs).1,
        (runChunks serveP filepath now (parallelChunks sz) fs).2.2) := by
    simp only [download_parallel, hfilter, hnotempty, hfailsne]
    rfl
  rw [hres]
  refine ⟨rfl, ?_, ?_⟩
  · exact spec.1 filepath (fun t _ => (partName_ne_filepath filepath t.1).symm)
  · intro j hj hjc
    have hjmem : (j, startOf sz j, endOf sz j) ∈ parallelChunks sz := by
      simp only [parallelChunks, numConnections, List.mem_map, List.mem_range]
      exact ⟨j, hj, rfl⟩
    exact spec.2.2 (j, startOf sz j, endOf sz j) hjmem (hhon j hj hjc)
      (hbounds j hj).1 (by rw [hrem]; exact (hbounds j hj).2)

/-- Witness for C6: a 32-byte file split 16 ways where chunk 5's server always
rejects; the download fails, the destination is untouched, and the other 15
chunk files are complete on disk. -/
theorem c6_failed_chunk_aborts_witness :
    (download_parallel (fun _ => none)
        (fun j a b => if j = 5 then none else some (rangeBytes (List.range 32) a b))
        "f" 32 0).1 = false ∧
    (download_parallel (fun _ => none)
        (fun j a b => if j = 5 then none else some (rangeBytes (List.range 32) a b))
        "f" 32 0).2.1 "f" = (fun _ => none : FS) "f" ∧
    (∀ j, j < 16 → j ≠ 5 →
      (download_parallel (fun _ => none)
          (fun j a b => if j = 5 then none else some (rangeBytes (List.range 32) a b))
          "f" 32 0).2.1 (partName "f" j) =
        some ⟨rangeBytes (List.range 32) (startOf 32 j) (endOf 32 j), 0⟩) :=
  c6_failed_chunk_aborts (fun _ => none)
    (fun j a b => if j = 5 then none else some (rangeBytes (List.range 32) a b))
    "f" 32 (List.range 32) 0 5
    (by norm_num) (by simp) (by norm_num)
    (fun _ _ => rfl)
    (fun j _ hne _ _ => by simp only []; rw [if_neg hne])
    (fun _ _ => rfl)

/-- The retry loop of `download_single` (lines 999-1071).  `serve (some r)` is
the response to a `Range: bytes={r}-` request, `serve none` to a plain full
GET; `none` models a request exception, `some (status, body)` an HTTP
response.  An existing file at or above the expected size returns success
immediately; a ranged request answered with a status other than 206 triggers a
restart: the resume position is reset to zero, a fresh full GET is issued, and
the file is opened in truncating ('wb') mode.  A status >= 400 raises
(`raise_for_status`) and retries; after writing, a final size equal to
`file_size` is success and anything else retries (`continue`).  Returns
(success, filesystem, the request list in issue order). -/
def download_single_loop (serve : Option Nat → Option (Nat × List Nat)) (filepath : String)
    (file_size : Nat) (now : ℚ) :
    Nat → FS → List (Option Nat) → Bool × FS × List (Option Nat)
  | 0, fs, log => (false, fs, log)
  | fuel + 1, fs, log =>
    let resumePos := match fs filepath with | some f => f.bytes.length | none => 0
    let oldBytes := match fs filepath with | some f => f.bytes | none => []
    if (fs filepath).isSome ∧ file_size ≤ resumePos then (true, fs, log)
    else
      let req : Option Nat := if 0 < resumePos then some resumePos else none
      match serve req with
      | none => download_single_loop serve filepath file_size now fuel fs (log ++ [req])
      | some (st, body) =>
        if 0 < resumePos ∧ st ≠ 206 then
          match serve none with
          | none =>
            download_single_loop serve filepath file_size now fuel fs (log ++ [req, none])
          | some (st2, body2) =>
            if 400 ≤ st2 then
              download_single_loop serve filepath file_size now fuel fs (log ++ [req, none])
            else
              let fs1 := fs.set filepath ⟨body2, now⟩
              if body2.length = file_size then (true, fs1, log ++ [req, none])
              else
                download_single_loop serve filepath file_size now fuel fs1 (log ++ [req, none])
        else
          if 400 ≤ st then
            download_single_loop serve filepath file_size now fuel fs (log ++ [req])
          else
            let newBytes := (if 0 < resumePos then oldBytes else []) ++ body
            let fs1 := fs.set filepath ⟨newBytes, now⟩
            if newBytes.length = file_size then (true, fs1, log ++ [req])
            else download_single_loop serve filepath file_size now fuel fs1 (log ++ [req])

/-- Model of `RobustDownloader.download_single` (lines 994-1071): sequential download
with resume support, up to `max_retries` attempts. -/
def download_single (fs : FS) (serve : Option Nat → Option (Nat × List Nat))
    (filepath : String) (file_size : Nat) (now : ℚ) : Bool × FS × List (Option Nat) :=
  download_single_loop serve filepath file_size now maxRetries fs []

theorem download_single_loop_restart (fs : FS) (serve : Option Nat → Option (Nat × List Nat))
    (filepath : String) (file_size : Nat) (now : ℚ) (fuel : Nat) (log : List (Option Nat))
    (p : File) (st1 : Nat) (b1 : List Nat) (st2 : Nat) (b2 : List Nat)
    (hp : fs filepath = some p)
    (hp0 : 0 < p.bytes.length) (hplt : p.bytes.length < file_size)
    (h1 : serve (some p.bytes.length) = some (st1, b1)) (hst1 : st1 ≠ 206)
    (h2 : serve none = some (st2, b2)) (hst2 : st2 < 400)
    (hb2 : b2.length = file_size) :
    download_single_loop serve filepath file_size now (fuel + 1) fs log =
      (true, fs.set filepath ⟨b2, now⟩, log ++ [some p.bytes.length, none]) := by
  simp only [download_single_loop, hp]
  rw [if_neg (by intro hcon; omega)]
  rw [if_pos hp0]
  simp only [h1]
  rw [if_pos ⟨hp0, hst1⟩]
  simp only [h2]
  rw [if_neg (by omega), if_pos hb2]

/-- C10: for every single-stream download that resumes from a non-empty
existing local file, if the server answers the ranged request with a status
other than 206, `download_single` restarts from offset zero with a fresh full
GET (the second request in the log is the plain GET) and opens the destination
in truncating write mode: the final file content is exactly the full-content
response body, never the existing partial data with the full response appended
after it. -/
theorem c10_single_restart (fs : FS) (serve : Option Nat → Option (Nat × List Nat))
    (filepath : String) (file_size : Nat) (now : ℚ) (p : File)
    (st1 : Nat) (b1 : List Nat) (st2 : Nat) (b2 : List Nat)
    (hp : fs filepath = some p)
    (hp0 : 0 < p.bytes.length) (hplt : p.bytes.length < file_size)
    (h1 : serve (some p.bytes.length) = some (st1, b1)) (hst1 : st1 ≠ 206)
    (h2 : serve none = some (st2, b2)) (hst2 : st2 < 400)
    (hb2 : b2.length = file_size) :
    download_single fs serve filepath file_size now =
      (true, fs.set filepath ⟨b2, now⟩, [some p.bytes.length, none]) := by
  unfold download_single
  rw [show maxRetries = 4 + 1 from rfl]
  rw [download_single_loop_restart fs serve filepath file_size now 4 [] p st1 b1 st2 b2
    hp hp0 hplt h1 hst1 h2 hst2 hb2]
  simp

/-- Witness for C10: a 1-byte partial file, a server that never returns 206;
the restart issues a plain GET and the file ends up exactly the full response
body [1, 2, 3]. -/
theorem c10_single_restart_witness :
    download_single (fun q => if q = "f" then some ⟨[7], 0⟩ else none)
      (fun _ => some (200, [1, 2, 3])) "f" 3 0 =
      (true,
        FS.set (fun q => if q = "f" then some ⟨[7], 0⟩ else none) "f" ⟨[1, 2, 3], 0⟩,
        [some 1, none]) :=
  c10_single_restart (fun q => if q = "f" then some ⟨[7], 0⟩ else none)
    (fun _ => some (200, [1, 2, 3])) "f" 3 0 ⟨[7], 0⟩ 200 [1, 2, 3] 200 [1, 2, 3]
    (by simp) (by norm_num) (by norm_num) rfl (by norm_num) rfl (by norm_num) rfl

/-- Result record of `download_unknown_size` and of `download_file`:
success flag, filesystem, caches, metadata requests (sha + size probes),
content-download requests, and SHA-256 computations performed. -/
structure DFOut where
  ok : Bool
  fs : FS
  caches : Caches
  metaReqs : Nat
  contentReqs : Nat
  hashes : Nat

/-- The retry loop of `RobustDownloader.download_unknown_size` (lines
763-831): full GET streamed to disk in truncating mode (`serveU = none`
models a request exception or an error status raised by
`raise_for_status`); no size check afterwards; if a truthy hash is
available, verify it — on mismatch delete the file and return False, on
match record verification (the `repo_id` argument is always truthy at the
call sites) and return True. -/
def download_unknown_size_loop (hash : List Nat → String) (serveU : Option (List Nat))
    (filepath : String) (expected_sha : Option String) (repo_id filename : String)
    (now : ℚ) : Nat → FS → Caches → Nat → Bool × FS × Caches × Nat × Nat
  | 0, fs, c, reqs => (false, fs, c, reqs, 0)
  | fuel + 1, fs, c, reqs =>
    match serveU with
    | none =>
      download_unknown_size_loop hash serveU filepath expected_sha repo_id filename now
        fuel fs c (reqs + 1)
    | some body =>
      let fs1 := fs.set filepath ⟨body, now⟩
      if shaTruthy expected_sha then
        if verify_file_sha256 hash fs1 filepath expected_sha then
          (true, fs1,
            (if repo_id ≠ "" then
              mark_file_verified fs1 c repo_id filename filepath (shaVal expected_sha) now
            else c), reqs + 1, 1)
        else (false, fs1.rm filepath, c, reqs + 1, 1)
      else (true, fs1, c, reqs + 1, 0)

/-- Model of `RobustDownloader.download_unknown_size` (entry point). -/
def download_unknown_size (fs : FS) (c : Caches) (hash : List Nat → String)
    (serveU : Option (List Nat)) (filepath : String) (expected_sha : Option String)
    (repo_id filename : String) (now : ℚ) : Bool × FS × Caches × Nat × Nat :=
  download_unknown_size_loop hash serveU filepath expected_sha repo_id filename now
    maxRetries fs c 0

/-- The path dispatch of `download_file` (lines 742-746): parallel download for
files over 10 MiB, single-stream otherwise.  Returns (success, filesystem,
content requests issued). -/
def downloadDispatch (fs : FS) (serveP : Nat → Nat → Nat → Option (List Nat))
    (serveS : Option Nat → Option (Nat × List Nat)) (filepath : String) (szI : Int)
    (now : ℚ) : Bool × FS × Nat :=
  if 10 * 1024 * 1024 < szI then
    download_parallel fs serveP filepath szI.toNat now
  else
    let r := download_single fs serveS filepath szI.toNat now
    (r.1, r.2.1, r.2.2.length)

/-- The post-download verification of `download_file` (lines 748-761): if the
download succeeded and a truthy hash is expected, verify the file — on
mismatch delete it and return False, on match record the VerificationRecord
and return the download result.  Returns (result, filesystem, caches, hashes
computed). -/
def finalizeDownload (fs : FS) (c : Caches) (hash : List Nat → String)
    (expected_sha : Option String) (repo_id filename filepath : String) (now : ℚ)
    (success : Bool) : Bool × FS × Caches × Nat :=
  if success && shaTruthy expected_sha then
    if verify_file_sha256 hash fs filepath expected_sha then
      (success, fs,
        mark_file_verified fs c repo_id filename filepath (shaVal expected_sha) now, 1)
    else (false, fs.rm filepath, c, 1)
  else (success, fs, c, 0)

/-- The tail of `download_file` after the existing-file checks (lines
734-761): a `None` size probe fails outright; the `-1` sentinel delegates to
`download_unknown_size` and returns its result directly; otherwise dispatch to
the parallel or single path and run the post-download verification. -/
def downloadTail (fs : FS) (c : Caches) (hash : List Nat → String)
    (expected_sha : Option String) (file_size : Option Int)
    (serveP : Nat → Nat → Nat → Option (List Nat))
    (serveS : Option Nat → Option (Nat × List Nat)) (serveU : Option (List Nat))
    (now : ℚ) (repo_id filename filepath : String) (metaReqs hashes0 : Nat) : DFOut :=
  match file_size with
  | none => ⟨false, fs, c, metaReqs, 0, hashes0⟩
  | some szI =>
    if szI = -1 then
      let r := download_unknown_size fs c hash serveU filepath expected_sha repo_id
        filename now
      ⟨r.1, r.2.1, r.2.2.1, metaReqs, r.2.2.2.1, hashes0 + r.2.2.2.2⟩
    else
      let d := downloadDispatch fs serveP serveS filepath szI now
      let fin := finalizeDownload d.2.1 c hash expected_sha repo_id filename filepath now d.1
      ⟨fin.1, fin.2.1, fin.2.2.1, metaReqs, d.2.2, hashes0 + fin.2.2.2⟩

/-- The existing-file branch of `download_file` for a falsy size probe (lines
716-732, `else: # Can't verify size`): a file over 1 KiB with a truthy hash is
verified (via the cache if possible); a file over 1 KiB with no hash is
accepted unconditionally; anything else falls through to the download tail. -/
def existsSizeUnknown (fs : FS) (c : Caches) (hash : List Nat → String)
    (expected_sha : Option String) (file_size : Option Int)
    (serveP : Nat → Nat → Nat → Option (List Nat))
    (serveS : Option Nat → Option (Nat × List Nat)) (serveU : Option (List Nat))
    (now : ℚ) (repo_id filename filepath : String) (actual_size metaReqs : Nat) : DFOut :=
  if 1024 < actual_size ∧ shaTruthy expected_sha then
    if is_file_verified c fs repo_id filename filepath expected_sha then
      ⟨true, fs, c, metaReqs, 0, 0⟩
    else if verify_file_sha256 hash fs filepath expected_sha then
      ⟨true, fs, mark_file_verified fs c repo_id filename filepath (shaVal expected_sha) now,
        metaReqs, 0, 1⟩
    else
      downloadTail (fs.rm filepath) c hash expected_sha file_size serveP serveS serveU now
        repo_id filename filepath metaReqs 1
  else if 1024 < actual_size then ⟨true, fs, c, metaReqs, 0, 0⟩
  else
    downloadTail fs c hash expected_sha file_size serveP serveS serveU now
      repo_id filename filepath metaReqs 0

/-- Model of `RobustDownloader.download_file` (lines 675-761): resolve the expected
hash (cache first, then the `remoteSha` metadata oracle) and the remote size
(the `remoteSize` probe oracle, one metadata request), run the existing-file
skip/verify/delete decision sequence, then the download tail.  Note that the
Python truthiness test `if file_size:` is true for the -1 sentinel, so the
sentinel takes the known-size comparison branch against the local size. -/
def download_file (fs : FS) (c : Caches) (hash : List Nat → String)
    (remoteSha : Option String) (remoteSize : Option Int)
    (serveP : Nat → Nat → Nat → Option (List Nat))
    (serveS : Option Nat → Option (Nat × List Nat)) (serveU : Option (List Nat))
    (now : ℚ) (repo_id filename local_dir : String) : DFOut :=
  let filepath := local_dir ++ "/" ++ filename
  let g := get_file_sha256 c remoteSha repo_id filename
  let expected_sha := g.1
  let c1 := g.2.1
  let metaReqs := g.2.2 + 1
  match fs filepath with
  | some f =>
    let actual_size := f.bytes.length
    match remoteSize with
    | some szI =>
      if szI ≠ 0 then
        if (actual_size : Int) = szI then
          if shaTruthy expected_sha &&
              is_file_verified c1 fs repo_id filename filepath expected_sha then
            ⟨true, fs, c1, metaReqs, 0, 0⟩
          else if shaTruthy expected_sha then
            if verify_file_sha256 hash fs filepath expected_sha then
              ⟨true, fs,
                mark_file_verified fs c1 repo_id filename filepath (shaVal expected_sha) now,
                metaReqs, 0, 1⟩
            else
              downloadTail (fs.rm filepath) c1 hash expected_sha remoteSize serveP serveS
                serveU now repo_id filename filepath metaReqs 1
          else ⟨true, fs, c1, metaReqs, 0, 0⟩
        else if szI < (actual_size : Int) then
          downloadTail (fs.rm filepath) c1 hash expected_sha remoteSize serveP serveS serveU
            now repo_id filename filepath metaReqs 0
        else
          downloadTail fs c1 hash expected_sha remoteSize serveP serveS serveU now
            repo_id filename filepath metaReqs 0
      else
        existsSizeUnknown fs c1 hash expected_sha remoteSize serveP serveS serveU now
          repo_id filename filepath actual_size metaReqs
    | none =>
      existsSizeUnknown fs c1 hash expected_sha remoteSize serveP serveS serveU now
        repo_id filename filepath actual_size metaReqs
  | none =>
    downloadTail fs c1 hash expected_sha remoteSize serveP serveS serveU now
      repo_id filename filepath metaReqs 0

/-- Counterexample for C1: with a 1025-byte local file at the destination, no
hash available, and the size probe returning the -1 "size unknowable"
sentinel, `download_file` does NOT accept the existing file untouched: since
Python's `if file_size:` is true for -1, the branch `actual_size > file_size`
(any positive size exceeds -1) classifies the file as corrupted, deletes it,
and re-downloads it through the unknown-size path — the destination content
changes. -/
theorem c1_counterexample :
    ¬ ((download_file
          (fun p => if p = "d/f" then some ⟨List.replicate 1025 0, 0⟩ else none)
          ⟨[], []⟩ (fun _ => "h") none (some (-1))
          (fun _ _ _ => none) (fun _ => none) (some [5]) 0 "r" "f" "d").ok = true ∧
        (download_file
          (fun p => if p = "d/f" then some ⟨List.replicate 1025 0, 0⟩ else none)
          ⟨[], []⟩ (fun _ => "h") none (some (-1))
          (fun _ _ _ => none) (fun _ => none) (some [5]) 0 "r" "f" "d").fs "d/f" =
          (fun p => if p = "d/f" then some (⟨List.replicate 1025 0, 0⟩ : File) else none)
            "d/f") := by
  decide

/-- C1 (amended): when the size probe returns the -1 sentinel and a local file
(larger than 1 KiB) exists at the destination with no expected hash available,
`download_file` treats the file as corrupted (its size exceeds -1 under the
truthy `if file_size:` comparison branch), deletes it, and re-downloads it via
the unknown-size path — returning true with the destination now holding the
freshly downloaded body.  The unconditional acceptance of an existing >1 KiB
hash-less file occurs instead when the size probe returns None (probe
failure): then `download_file` returns true and leaves the whole filesystem
untouched. -/
theorem c1_sentinel_amended (fs : FS) (c : Caches) (hash : List Nat → String)
    (remoteSha : Option String) (serveP : Nat → Nat → Nat → Option (List Nat))
    (serveS : Option Nat → Option (Nat × List Nat)) (now : ℚ)
    (repo_id filename local_dir : String) (f : File) (b : List Nat)
    (hf : fs (local_dir ++ "/" ++ filename) = some f)
    (hsize : 1024 < f.bytes.length)
    (hsha : (get_file_sha256 c remoteSha repo_id filename).1 = none) :
    ((download_file fs c hash remoteSha (some (-1)) serveP serveS (some b) now repo_id
        filename local_dir).ok = true ∧
      (download_file fs c hash remoteSha (some (-1)) serveP serveS (some b) now repo_id
        filename local_dir).fs (local_dir ++ "/" ++ filename) = some ⟨b, now⟩) ∧
    ((download_file fs c hash remoteSha none serveP serveS (some b) now repo_id
        filename local_dir).ok = true ∧
      ∀ q, (download_file fs c hash remoteSha none serveP serveS (some b) now repo_id
        filename local_dir).fs q = fs q) := by
  constructor
  · have hres : download_file fs c hash remoteSha (some (-1)) serveP serveS (some b) now
        repo_id filename local_dir =
        ⟨true, (fs.rm (local_dir ++ "/" ++ filename)).set (local_dir ++ "/" ++ filename)
          ⟨b, now⟩, (get_file_sha256 c remoteSha repo_id filename).2.1,
          (get_file_sha256 c remoteSha repo_id filename).2.2 + 1, 1, 0⟩ := by
      simp only [download_file, hf]
      rw [if_pos (by norm_num), if_neg (by omega), if_pos (by omega)]
      simp only [downloadTail, hsha]
      rw [if_pos trivial]
      simp only [download_unknown_size]
      rw [show maxRetries = 4 + 1 from rfl]
      simp only [download_unknown_size_loop, shaTruthy, Bool.false_eq_true, if_false]
    rw [hres]
    exact ⟨rfl, FS.set_self _ _ _⟩
  · have hres : download_file fs c hash remoteSha none serveP serveS (some b) now
        repo_id filename local_dir =
        ⟨true, fs, (get_file_sha256 c remoteSha repo_id filename).2.1,
          (get_file_sha256 c remoteSha repo_id filename).2.2 + 1, 0, 0⟩ := by
      simp only [download_file, hf, existsSizeUnknown, hsha]
      rw [if_neg (by simp [shaTruthy]), if_pos hsize]
    rw [hres]
    exact ⟨rfl, fun q => rfl⟩

/-- Witness for the amended C1 at a concrete 1025-byte local file. -/
theorem c1_sentinel_amended_witness :
    ((download_file (fun p => if p = "d/f" then some ⟨List.replicate 1025 0, 0⟩ else none)
        ⟨[], []⟩ (fun _ => "h") none (some (-1)) (fun _ _ _ => none) (fun _ => none)
        (some [5]) 0 "r" "f" "d").ok = true ∧
      (download_file (fun p => if p = "d/f" then some ⟨List.replicate 1025 0, 0⟩ else none)
        ⟨[], []⟩ (fun _ => "h") none (some (-1)) (fun _ _ _ => none) (fun _ => none)
        (some [5]) 0 "r" "f" "d").fs ("d" ++ "/" ++ "f") = some ⟨[5], 0⟩) ∧
    ((download_file (fun p => if p = "d/f" then some ⟨List.replicate 1025 0, 0⟩ else none)
        ⟨[], []⟩ (fun _ => "h") none none (fun _ _ _ => none) (fun _ => none)
        (some [5]) 0 "r" "f" "d").ok = true ∧
      ∀ q, (download_file (fun p => if p = "d/f" then some ⟨List.replicate 1025 0, 0⟩ else none)
        ⟨[], []⟩ (fun _ => "h") none none (fun _ _ _ => none) (fun _ => none)
        (some [5]) 0 "r" "f" "d").fs q =
        (fun p => if p = "d/f" then some (⟨List.replicate 1025 0, 0⟩ : File) else none) q) :=
  c1_sentinel_amended
    (fun p => if p = "d/f" then some ⟨List.replicate 1025 0, 0⟩ else none)
    ⟨[], []⟩ (fun _ => "h") none (fun _ _ _ => none) (fun _ => none) 0 "r" "f" "d"
    ⟨List.replicate 1025 0, 0⟩ [5] rfl (by rw [show (⟨List.replicate 1025 0, 0⟩ : File).bytes.length = (List.replicate 1025 (0 : Nat)).length from rfl, List.length_replicate]; norm_num) rfl

theorem download_file_absent (fs : FS) (c : Caches) (hash : List Nat → String)
    (remoteSha : Option String) (remoteSize : Option Int)
    (serveP : Nat → Nat → Nat → Option (List Nat))
    (serveS : Option Nat → Option (Nat × List Nat)) (serveU : Option (List Nat))
    (now : ℚ) (repo_id filename local_dir : String)
    (hf : fs (local_dir ++ "/" ++ filename) = none) :
    download_file fs c hash remoteSha remoteSize serveP serveS serveU now repo_id filename
      local_dir =
    downloadTail fs (get_file_sha256 c remoteSha repo_id filename).2.1 hash
      (get_file_sha256 c remoteSha repo_id filename).1 remoteSize serveP serveS serveU now
      repo_id filename (local_dir ++ "/" ++ filename)
      ((get_file_sha256 c remoteSha repo_id filename).2.2 + 1) 0 := by
  simp only [download_file, hf]

/-- C3: for every `download_file` call in which the file is freshly downloaded
(no local file initially, known non-sentinel size) with an expected hash
present: if the computed SHA-256 of the downloaded file differs from the
expected hash, the downloaded file is deleted and `download_file` returns
false; if it matches, a VerificationRecord for the file is written to the
verified-files cache and `download_file` returns true. -/
theorem c3_hash_gate (fs : FS) (c : Caches) (hash : List Nat → String)
    (remoteSha : Option String) (szI : Int)
    (serveP : Nat → Nat → Nat → Option (List Nat))
    (serveS : Option Nat → Option (Nat × List Nat)) (serveU : Option (List Nat))
    (now : ℚ) (repo_id filename local_dir : String) (s : String) (f1 : File)
    (hf : fs (local_dir ++ "/" ++ filename) = none)
    (hsha : (get_file_sha256 c remoteSha repo_id filename).1 = some s)
    (hs : s ≠ "")
    (hsz0 : szI ≠ 0) (hszm1 : szI ≠ -1)
    (hd : (downloadDispatch fs serveP serveS (local_dir ++ "/" ++ filename) szI now).1 = true)
    (hfile : (downloadDispatch fs serveP serveS (local_dir ++ "/" ++ filename) szI now).2.1
      (local_dir ++ "/" ++ filename) = some f1) :
    (hash f1.bytes ≠ s →
      (download_file fs c hash remoteSha (some szI) serveP serveS serveU now repo_id filename
        local_dir).ok = false ∧
      (download_file fs c hash remoteSha (some szI) serveP serveS serveU now repo_id filename
        local_dir).fs (local_dir ++ "/" ++ filename) = none) ∧
    (hash f1.bytes = s →
      (download_file fs c hash remoteSha (some szI) serveP serveS serveU now repo_id filename
        local_dir).ok = true ∧
      getKey (download_file fs c hash remoteSha (some szI) serveP serveS serveU now repo_id
        filename local_dir).caches.verified (repo_id ++ "/" ++ filename) =
        some ⟨s, f1.bytes.length, f1.mtime, now⟩) := by
  rw [download_file_absent fs c hash remoteSha (some szI) serveP serveS serveU now repo_id
    filename local_dir hf]
  simp only [downloadTail, hsha]
  rw [if_neg hszm1]
  have hverify : verify_file_sha256 hash
      (downloadDispatch fs serveP serveS (local_dir ++ "/" ++ filename) szI now).2.1
      (local_dir ++ "/" ++ filename) (some s) = decide (hash f1.bytes = s) := by
    simp only [verify_file_sha256, hfile]
    rw [if_neg hs]
  have htruthy : shaTruthy (some s) = true := by
    simp [shaTruthy, hs]
  constructor
  · intro hne
    have hfin : finalizeDownload
        (downloadDispatch fs serveP serveS (local_dir ++ "/" ++ filename) szI now).2.1
        (get_file_sha256 c remoteSha repo_id filename).2.1 hash (some s) repo_id filename
        (local_dir ++ "/" ++ filename) now
        (downloadDispatch fs serveP serveS (local_dir ++ "/" ++ filename) szI now).1 =
        (false, (downloadDispatch fs serveP serveS (local_dir ++ "/" ++ filename) szI
          now).2.1.rm (local_dir ++ "/" ++ filename),
          (get_file_sha256 c remoteSha repo_id filename).2.1, 1) := by
      simp only [finalizeDownload, hd, htruthy, Bool.and_self, if_true]
      rw [hverify, if_neg (by simp [hne])]
    rw [hfin]
    exact ⟨rfl, FS.rm_self _ _⟩
  · intro heq
    have hfin : finalizeDownload
        (downloadDispatch fs serveP serveS (local_dir ++ "/" ++ filename) szI now).2.1
        (get_file_sha256 c remoteSha repo_id filename).2.1 hash (some s) repo_id filename
        (local_dir ++ "/" ++ filename) now
        (downloadDispatch fs serveP serveS (local_dir ++ "/" ++ filename) szI now).1 =
        ((downloadDispatch fs serveP serveS (local_dir ++ "/" ++ filename) szI now).1,
          (downloadDispatch fs serveP serveS (local_dir ++ "/" ++ filename) szI now).2.1,
          mark_file_verified
            (downloadDispatch fs serveP serveS (local_dir ++ "/" ++ filename) szI now).2.1
            (get_file_sha256 c remoteSha repo_id filename).2.1 repo_id filename
            (local_dir ++ "/" ++ filename) s now, 1) := by
      simp only [finalizeDownload, hd, htruthy, Bool.and_self, if_true]
      rw [hverify, if_pos (by simp [heq])]
      rfl
    rw [hfin]
    refine ⟨hd, ?_⟩
    simp only [mark_file_verified, hfile]
    exact getKey_setKey_self _ _ _

/-- Witness for C3: a fresh 3-byte single-stream download whose hash matches
the expected "h" ends verified, with the VerificationRecord in the cache. -/
theorem c3_hash_gate_witness :
    (download_file (fun _ => none) ⟨[], []⟩ (fun _ => "h") (some "h") (some 3)
      (fun _ _ _ => none) (fun _ => some (200, [1, 2, 3])) none 0 "r" "f" "d").ok = true ∧
    getKey (download_file (fun _ => none) ⟨[], []⟩ (fun _ => "h") (some "h") (some 3)
      (fun _ _ _ => none) (fun _ => some (200, [1, 2, 3])) none 0 "r" "f"
      "d").caches.verified ("r" ++ "/" ++ "f") = some ⟨"h", 3, 0, 0⟩ :=
  (c3_hash_gate (fun _ => none) ⟨[], []⟩ (fun _ => "h") (some "h") 3
    (fun _ _ _ => none) (fun _ => some (200, [1, 2, 3])) none 0 "r" "f" "d" "h"
    ⟨[1, 2, 3], 0⟩ rfl rfl (by decide) (by decide) (by decide) (by decide)
    (by decide)).2 rfl

theorem downloadTail_hashes_le (fs : FS) (c : Caches) (hash : List Nat → String)
    (expected_sha : Option String) (file_size : Option Int)
    (serveP : Nat → Nat → Nat → Option (List Nat))
    (serveS : Option Nat → Option (Nat × List Nat)) (serveU : Option (List Nat))
    (now : ℚ) (repo_id filename filepath : String) (metaReqs hashes0 : Nat) :
    hashes0 ≤ (downloadTail fs c hash expected_sha file_size serveP serveS serveU now
      repo_id filename filepath metaReqs hashes0).hashes := by
  unfold downloadTail
  cases file_size with
  | none => exact Nat.le_refl _
  | some szI =>
    dsimp only
    by_cases h : szI = -1
    · rw [if_pos h]
      exact Nat.le_add_right _ _
    · rw [if_neg h]
      exact Nat.le_add_right _ _

/-- C8: `is_file_verified` returns true exactly when a cached
VerificationRecord exists under key repo_id/filename whose stored sha256
equals the (truthy) expected hash, whose stored size equals the file's current
size, and whose stored modification time differs from the file's current
modification time by strictly less than 1 second; and whenever the record
disagrees (is_file_verified false) while a local file of the expected size
exists with a truthy expected hash, the next `download_file` call recomputes
the hash (at least one SHA-256 computation) instead of trusting the record. -/
theorem c8_verification_cache :
    (∀ (c : Caches) (fs : FS) (repo_id filename filepath s : String) (f : File),
      s ≠ "" → fs filepath = some f →
      (is_file_verified c fs repo_id filename filepath (some s) = true ↔
        ∃ r, getKey c.verified (repo_id ++ "/" ++ filename) = some r ∧
          r.sha256 = s ∧ r.size = f.bytes.length ∧ |r.mtime - f.mtime| < 1)) ∧
    (∀ (fs : FS) (c : Caches) (hash : List Nat → String) (remoteSha : Option String)
      (szI : Int) (serveP : Nat → Nat → Nat → Option (List Nat))
      (serveS : Option Nat → Option (Nat × List Nat)) (serveU : Option (List Nat))
      (now : ℚ) (repo_id filename local_dir s : String) (f : File),
      fs (local_dir ++ "/" ++ filename) = some f →
      (get_file_sha256 c remoteSha repo_id filename).1 = some s → s ≠ "" →
      szI ≠ 0 → (f.bytes.length : Int) = szI →
      is_file_verified (get_file_sha256 c remoteSha repo_id filename).2.1 fs repo_id
        filename (local_dir ++ "/" ++ filename) (some s) = false →
      1 ≤ (download_file fs c hash remoteSha (some szI) serveP serveS serveU now repo_id
        filename local_dir).hashes) := by
  constructor
  · intro c fs repo_id filename filepath s f hs hf
    simp only [is_file_verified]
    rw [if_neg hs]
    cases hr : getKey c.verified (repo_id ++ "/" ++ filename) with
    | none =>
      simp only [hf]
      constructor
      · intro hcon
        cases hcon
      · rintro ⟨r, hr2, _⟩
        cases hr2
    | some r =>
      simp only [hf, Bool.and_eq_true, decide_eq_true_eq, ratAbs_eq_abs]
      constructor
      · rintro ⟨⟨h1, h2⟩, h3⟩
        exact ⟨r, rfl, h1, h2, h3⟩
      · rintro ⟨r', hr', h1, h2, h3⟩
        cases hr'
        exact ⟨⟨h1, h2⟩, h3⟩
  · intro fs c hash remoteSha szI serveP serveS serveU now repo_id filename local_dir s f
      hf hsha hs hsz0 hszeq hver
    simp only [download_file, hf, hsha]
    rw [if_pos hsz0, if_pos hszeq]
    have htruthy : shaTruthy (some s) = true := by simp [shaTruthy, hs]
    rw [if_neg (by rw [htruthy, hver]; simp), if_pos (by rw [htruthy])]
    by_cases hv : verify_file_sha256 hash fs (local_dir ++ "/" ++ filename) (some s) = true
    · rw [if_pos hv]
    · rw [if_neg hv]
      exact downloadTail_hashes_le _ _ _ _ _ _ _ _ _ _ _ _ _ _

/-- Witness for C8: the iff at a concrete matching record, and the
hash-recompute consequence at a concrete stale record (wrong size). -/
theorem c8_verification_cache_witness :
    (is_file_verified ⟨[], [("r" ++ "/" ++ "f", ⟨"h", 3, 0, 0⟩)]⟩
        (fun p => if p = "d/f" then some ⟨[1, 2, 3], 0⟩ else none) "r" "f" "d/f"
        (some "h") = true ↔
      ∃ r, getKey (Caches.verified ⟨[], [("r" ++ "/" ++ "f", ⟨"h", 3, 0, 0⟩)]⟩)
          ("r" ++ "/" ++ "f") = some r ∧
        r.sha256 = "h" ∧ r.size = (⟨[1, 2, 3], (0 : ℚ)⟩ : File).bytes.length ∧
        |r.mtime - (⟨[1, 2, 3], (0 : ℚ)⟩ : File).mtime| < 1) ∧
    1 ≤ (download_file (fun p => if p = "d/f" then some ⟨[1, 2, 3], 0⟩ else none)
      ⟨[("r" ++ "/" ++ "f", "h")], [("r" ++ "/" ++ "f", ⟨"h", 2, 0, 0⟩)]⟩ (fun _ => "x")
      (some "h") (some 3) (fun _ _ _ => none) (fun _ => none) none 0 "r" "f" "d").hashes :=
  ⟨c8_verification_cache.1 ⟨[], [("r" ++ "/" ++ "f", ⟨"h", 3, 0, 0⟩)]⟩
      (fun p => if p = "d/f" then some ⟨[1, 2, 3], 0⟩ else none) "r" "f" "d/f" "h"
      ⟨[1, 2, 3], 0⟩ (by decide) rfl,
    c8_verification_cache.2 (fun p => if p = "d/f" then some ⟨[1, 2, 3], 0⟩ else none)
      ⟨[("r" ++ "/" ++ "f", "h")], [("r" ++ "/" ++ "f", ⟨"h", 2, 0, 0⟩)]⟩ (fun _ => "x")
      (some "h") 3 (fun _ _ _ => none) (fun _ => none) none 0 "r" "f" "d" "h"
      ⟨[1, 2, 3], 0⟩ rfl (by decide) (by decide) (by decide) (by decide) (by decide)⟩

theorem ratAbs_sub_self (x : ℚ) : ratAbs (x - x) < 1 := by
  rw [sub_self]
  unfold ratAbs
  rw [if_neg (lt_irrefl 0)]
  norm_num

theorem get_file_sha256_hit (c : Caches) (remoteSha : Option String)
    (repo_id filename s : String)
    (h : getKey c.sha (repo_id ++ "/" ++ filename) = some s) :
    get_file_sha256 c remoteSha repo_id filename = (some s, c, 0) := by
  simp [get_file_sha256, h]

theorem get_file_sha256_key (c : Caches) (remoteSha : Option String)
    (repo_id filename s : String)
    (h : (get_file_sha256 c remoteSha repo_id filename).1 = some s) :
    getKey ((get_file_sha256 c remoteSha repo_id filename).2.1).sha
      (repo_id ++ "/" ++ filename) = some s := by
  cases hk : getKey c.sha (repo_id ++ "/" ++ filename) with
  | some s0 =>
    have hh : s0 = s := by
      have h2 := h
      rw [get_file_sha256_hit c remoteSha repo_id filename s0 hk] at h2
      simpa using h2
    subst hh
    rw [get_file_sha256_hit c remoteSha repo_id filename s0 hk]
    exact hk
  | none =>
    cases hr : remoteSha with
    | some s0 =>
      have hres : get_file_sha256 c (some s0) repo_id filename =
          (some s0, Caches.mk (setKey c.sha (repo_id ++ "/" ++ filename) s0)
            c.verified, 1) := by
        simp [get_file_sha256, hk]
      rw [hr] at h
      rw [hres] at h
      have hh : s0 = s := by simpa using h
      subst hh
      rw [hres]
      exact getKey_setKey_self _ _ _
    | none =>
      rw [hr] at h
      have hres : get_file_sha256 c none repo_id filename = (none, c, 1) := by
        simp [get_file_sha256, hk]
      rw [hres] at h
      cases h

theorem mark_file_verified_sha (fs : FS) (c : Caches) (repo_id filename filepath : String)
    (s : String) (now : ℚ) :
    (mark_file_verified fs c repo_id filename filepath s now).sha = c.sha := by
  unfold mark_file_verified
  cases fs filepath <;> rfl

theorem is_file_verified_of_record (c : Caches) (fs : FS)
    (repo_id filename filepath s : String) (f : File) (r : VRecord)
    (hs : s ≠ "") (hr : getKey c.verified (repo_id ++ "/" ++ filename) = some r)
    (hf : fs filepath = some f) (h1 : r.sha256 = s) (h2 : r.size = f.bytes.length)
    (h3 : ratAbs (r.mtime - f.mtime) < 1) :
    is_file_verified c fs repo_id filename filepath (some s) = true := by
  simp [is_file_verified, hs, hr, hf, h1, h2, h3]

theorem download_file_fresh_eval (fs : FS) (c : Caches) (hash : List Nat → String)
    (remoteSha : Option String) (szI : Int)
    (serveP : Nat → Nat → Nat → Option (List Nat))
    (serveS : Option Nat → Option (Nat × List Nat)) (serveU : Option (List Nat))
    (now : ℚ) (repo_id filename local_dir s : String) (f1 : File)
    (hf : fs (local_dir ++ "/" ++ filename) = none)
    (hsha : (get_file_sha256 c remoteSha repo_id filename).1 = some s) (hs : s ≠ "")
    (hszm1 : szI ≠ -1)
    (hd : (downloadDispatch fs serveP serveS (local_dir ++ "/" ++ filename) szI now).1 = true)
    (hfile : (downloadDispatch fs serveP serveS (local_dir ++ "/" ++ filename) szI now).2.1
      (local_dir ++ "/" ++ filename) = some f1)
    (hmatch : hash f1.bytes = s) :
    download_file fs c hash remoteSha (some szI) serveP serveS serveU now repo_id filename
      local_dir =
    ⟨true, (downloadDispatch fs serveP serveS (local_dir ++ "/" ++ filename) szI now).2.1,
      mark_file_verified
        (downloadDispatch fs serveP serveS (local_dir ++ "/" ++ filename) szI now).2.1
        (get_file_sha256 c remoteSha repo_id filename).2.1 repo_id filename
        (local_dir ++ "/" ++ filename) s now,
      (get_file_sha256 c remoteSha repo_id filename).2.2 + 1,
      (downloadDispatch fs serveP serveS (local_dir ++ "/" ++ filename) szI now).2.2,
      0 + 1⟩ := by
  simp only [download_file, hf, hsha]
  simp only [downloadTail]
  rw [if_neg hszm1]
  have hverify : verify_file_sha256 hash
      (downloadDispatch fs serveP serveS (local_dir ++ "/" ++ filename) szI now).2.1
      (local_dir ++ "/" ++ filename) (some s) = true := by
    simp only [verify_file_sha256, hfile]
    rw [if_neg hs]
    simp [hmatch]
  have hfin : finalizeDownload
      (downloadDispatch fs serveP serveS (local_dir ++ "/" ++ filename) szI now).2.1
      (get_file_sha256 c remoteSha repo_id filename).2.1 hash (some s) repo_id filename
      (local_dir ++ "/" ++ filename) now
      (downloadDispatch fs serveP serveS (local_dir ++ "/" ++ filename) szI now).1 =
      ((downloadDispatch fs serveP serveS (local_dir ++ "/" ++ filename) szI now).1,
        (downloadDispatch fs serveP serveS (local_dir ++ "/" ++ filename) szI now).2.1,
        mark_file_verified
          (downloadDispatch fs serveP serveS (local_dir ++ "/" ++ filename) szI now).2.1
          (get_file_sha256 c remoteSha repo_id filename).2.1 repo_id filename
          (local_dir ++ "/" ++ filename) s now, 1) := by
    simp only [finalizeDownload, hd, shaTruthy, Bool.and_self]
    rw [if_pos (by simp [hs]), if_pos hverify]
    rfl
  rw [hfin, hd]

theorem download_file_skip_cached (fs : FS) (c : Caches) (hash : List Nat → String)
    (remoteSha : Option String) (szI : Int)
    (serveP : Nat → Nat → Nat → Option (List Nat))
    (serveS : Option Nat → Option (Nat × List Nat)) (serveU : Option (List Nat))
    (now : ℚ) (repo_id filename local_dir s : String) (f : File)
    (hf : fs (local_dir ++ "/" ++ filename) = some f)
    (hsha : (get_file_sha256 c remoteSha repo_id filename).1 = some s) (hs : s ≠ "")
    (hsz0 : szI ≠ 0)
    (hszeq : (f.bytes.length : Int) = szI)
    (hver : is_file_verified (get_file_sha256 c remoteSha repo_id filename).2.1 fs repo_id
      filename (local_dir ++ "/" ++ filename) (some s) = true) :
    download_file fs c hash remoteSha (some szI) serveP serveS serveU now repo_id filename
      local_dir =
    ⟨true, fs, (get_file_sha256 c remoteSha repo_id filename).2.1,
      (get_file_sha256 c remoteSha repo_id filename).2.2 + 1, 0, 0⟩ := by
  simp only [download_file, hf, hsha]
  rw [if_pos hsz0, if_pos hszeq,
    if_pos (by rw [hver]; simp [shaTruthy, hs])]

/-- C9 (amended): after a first `download_file` call fully downloads a file
(final size equal to the expected size) and hash-verifies it, a second
`download_file` call on the same target returns true via the cached skip path,
performs no content-download network I/O and recomputes no hash — but it still
performs metadata network I/O: the `get_file_size` probe is issued
unconditionally on every call, so the second call's metadata request count is
1, not 0. -/
theorem c9_idempotent_amended (fs : FS) (c : Caches) (hash : List Nat → String)
    (remoteSha : Option String) (szI : Int)
    (serveP : Nat → Nat → Nat → Option (List Nat))
    (serveS : Option Nat → Option (Nat × List Nat)) (serveU : Option (List Nat))
    (now1 now2 : ℚ) (repo_id filename local_dir s : String) (f1 : File)
    (hf : fs (local_dir ++ "/" ++ filename) = none)
    (hsha : (get_file_sha256 c remoteSha repo_id filename).1 = some s) (hs : s ≠ "")
    (hsz0 : szI ≠ 0) (hszm1 : szI ≠ -1) (hszpos : 0 ≤ szI)
    (hd : (downloadDispatch fs serveP serveS (local_dir ++ "/" ++ filename) szI now1).1 =
      true)
    (hfile : (downloadDispatch fs serveP serveS (local_dir ++ "/" ++ filename) szI now1).2.1
      (local_dir ++ "/" ++ filename) = some f1)
    (hlen : f1.bytes.length = szI.toNat)
    (hmatch : hash f1.bytes = s) :
    (download_file fs c hash remoteSha (some szI) serveP serveS serveU now1 repo_id filename
      local_dir).ok = true ∧
    (download_file
      (download_file fs c hash remoteSha (some szI) serveP serveS serveU now1 repo_id
        filename local_dir).fs
      (download_file fs c hash remoteSha (some szI) serveP serveS serveU now1 repo_id
        filename local_dir).caches
      hash remoteSha (some szI) serveP serveS serveU now2 repo_id filename local_dir).ok =
      true ∧
    (download_file
      (download_file fs c hash remoteSha (some szI) serveP serveS serveU now1 repo_id
        filename local_dir).fs
      (download_file fs c hash remoteSha (some szI) serveP serveS serveU now1 repo_id
        filename local_dir).caches
      hash remoteSha (some szI) serveP serveS serveU now2 repo_id filename
      local_dir).contentReqs = 0 ∧
    (download_file
      (download_file fs c hash remoteSha (some szI) serveP serveS serveU now1 repo_id
        filename local_dir).fs
      (download_file fs c hash remoteSha (some szI) serveP serveS serveU now1 repo_id
        filename local_dir).caches
      hash remoteSha (some szI) serveP serveS serveU now2 repo_id filename
      local_dir).hashes = 0 ∧
    (download_file
      (download_file fs c hash remoteSha (some szI) serveP serveS serveU now1 repo_id
        filename local_dir).fs
      (download_file fs c hash remoteSha (some szI) serveP serveS serveU now1 repo_id
        filename local_dir).caches
      hash remoteSha (some szI) serveP serveS serveU now2 repo_id filename
      local_dir).metaReqs = 1 := by
  have h1 := download_file_fresh_eval fs c hash remoteSha szI serveP serveS serveU now1
    repo_id filename local_dir s f1 hf hsha hs hszm1 hd hfile hmatch
  have hkey : getKey (mark_file_verified
      (downloadDispatch fs serveP serveS (local_dir ++ "/" ++ filename) szI now1).2.1
      (get_file_sha256 c remoteSha repo_id filename).2.1 repo_id filename
      (local_dir ++ "/" ++ filename) s now1).sha (repo_id ++ "/" ++ filename) = some s := by
    rw [mark_file_verified_sha]
    exact get_file_sha256_key c remoteSha repo_id filename s hsha
  have hget2 := get_file_sha256_hit (mark_file_verified
      (downloadDispatch fs serveP serveS (local_dir ++ "/" ++ filename) szI now1).2.1
      (get_file_sha256 c remoteSha repo_id filename).2.1 repo_id filename
      (local_dir ++ "/" ++ filename) s now1) remoteSha repo_id filename s hkey
  have hc2v : (mark_file_verified
      (downloadDispatch fs serveP serveS (local_dir ++ "/" ++ filename) szI now1).2.1
      (get_file_sha256 c remoteSha repo_id filename).2.1 repo_id filename
      (local_dir ++ "/" ++ filename) s now1).verified =
      setKey ((get_file_sha256 c remoteSha repo_id filename).2.1).verified
        (repo_id ++ "/" ++ filename) ⟨s, f1.bytes.length, f1.mtime, now1⟩ := by
    simp [mark_file_verified, hfile]
  have hver2 : is_file_verified (get_file_sha256 (mark_file_verified
      (downloadDispatch fs serveP serveS (local_dir ++ "/" ++ filename) szI now1).2.1
      (get_file_sha256 c remoteSha repo_id filename).2.1 repo_id filename
      (local_dir ++ "/" ++ filename) s now1) remoteSha repo_id filename).2.1
      (downloadDispatch fs serveP serveS (local_dir ++ "/" ++ filename) szI now1).2.1
      repo_id filename (local_dir ++ "/" ++ filename) (some s) = true := by
    rw [hget2]
    exact is_file_verified_of_record _ _ repo_id filename (local_dir ++ "/" ++ filename) s
      f1 ⟨s, f1.bytes.length, f1.mtime, now1⟩ hs (by rw [hc2v]; exact getKey_setKey_self _ _ _)
      hfile rfl rfl (ratAbs_sub_self _)
  have hszeq2 : ((f1.bytes.length : Nat) : Int) = szI := by
    rw [hlen]
    exact Int.toNat_of_nonneg hszpos
  have h2 := download_file_skip_cached
    (downloadDispatch fs serveP serveS (local_dir ++ "/" ++ filename) szI now1).2.1
    (mark_file_verified
      (downloadDispatch fs serveP serveS (local_dir ++ "/" ++ filename) szI now1).2.1
      (get_file_sha256 c remoteSha repo_id filename).2.1 repo_id filename
      (local_dir ++ "/" ++ filename) s now1)
    hash remoteSha szI serveP serveS serveU now2 repo_id filename local_dir s f1
    hfile (by rw [hget2]) hs hsz0 hszeq2 hver2
  rw [h1]
  simp only []
  rw [h2, hget2]
  simp

/-- Counterexample for C9: a first `download_file` call fully downloads and
hash-verifies a 3-byte file; the second call returns true via the cached skip
path, yet its network request count is not zero — `get_file_size` issues its
metadata probe unconditionally at the top of every `download_file` call, so
the second call performs network I/O. -/
theorem c9_counterexample :
    (download_file (fun _ => none) ⟨[], []⟩ (fun _ => "h") (some "h") (some 3)
      (fun _ _ _ => none) (fun _ => some (200, [1, 2, 3])) none 0 "r" "f" "d").ok = true ∧
    (download_file
      (download_file (fun _ => none) ⟨[], []⟩ (fun _ => "h") (some "h") (some 3)
        (fun _ _ _ => none) (fun _ => some (200, [1, 2, 3])) none 0 "r" "f" "d").fs
      (download_file (fun _ => none) ⟨[], []⟩ (fun _ => "h") (some "h") (some 3)
        (fun _ _ _ => none) (fun _ => some (200, [1, 2, 3])) none 0 "r" "f" "d").caches
      (fun _ => "h") (some "h") (some 3) (fun _ _ _ => none)
      (fun _ => some (200, [1, 2, 3])) none 1 "r" "f" "d").ok = true ∧
    ¬ ((download_file
        (download_file (fun _ => none) ⟨[], []⟩ (fun _ => "h") (some "h") (some 3)
          (fun _ _ _ => none) (fun _ => some (200, [1, 2, 3])) none 0 "r" "f" "d").fs
        (download_file (fun _ => none) ⟨[], []⟩ (fun _ => "h") (some "h") (some 3)
          (fun _ _ _ => none) (fun _ => some (200, [1, 2, 3])) none 0 "r" "f" "d").caches
        (fun _ => "h") (some "h") (some 3) (fun _ _ _ => none)
        (fun _ => some (200, [1, 2, 3])) none 1 "r" "f" "d").metaReqs +
      (download_file
        (download_file (fun _ => none) ⟨[], []⟩ (fun _ => "h") (some "h") (some 3)
          (fun _ _ _ => none) (fun _ => some (200, [1, 2, 3])) none 0 "r" "f" "d").fs
        (download_file (fun _ => none) ⟨[], []⟩ (fun _ => "h") (some "h") (some 3)
          (fun _ _ _ => none) (fun _ => some (200, [1, 2, 3])) none 0 "r" "f" "d").caches
        (fun _ => "h") (some "h") (some 3) (fun _ _ _ => none)
        (fun _ => some (200, [1, 2, 3])) none 1 "r" "f" "d").contentReqs = 0) := by
  have h1 := download_file_fresh_eval (fun _ => none) ⟨[], []⟩ (fun _ => "h") (some "h") 3
    (fun _ _ _ => none) (fun _ => some (200, [1, 2, 3])) none 0 "r" "f" "d" "h"
    ⟨[1, 2, 3], 0⟩ rfl rfl (by decide) (by decide) (by decide) (by decide) (by decide)
  have hget2 := get_file_sha256_hit (mark_file_verified
      (downloadDispatch (fun _ => none) (fun _ _ _ => none)
        (fun _ => some (200, [1, 2, 3])) ("d" ++ "/" ++ "f") 3 0).2.1
      (get_file_sha256 ⟨[], []⟩ (some "h") "r" "f").2.1 "r" "f"
      ("d" ++ "/" ++ "f") "h" 0) (some "h") "r" "f" "h" (by decide)
  have hver2 : is_file_verified (get_file_sha256 (mark_file_verified
      (downloadDispatch (fun _ => none) (fun _ _ _ => none)
        (fun _ => some (200, [1, 2, 3])) ("d" ++ "/" ++ "f") 3 0).2.1
      (get_file_sha256 ⟨[], []⟩ (some "h") "r" "f").2.1 "r" "f"
      ("d" ++ "/" ++ "f") "h" 0) (some "h") "r" "f").2.1
      (downloadDispatch (fun _ => none) (fun _ _ _ => none)
        (fun _ => some (200, [1, 2, 3])) ("d" ++ "/" ++ "f") 3 0).2.1
      "r" "f" ("d" ++ "/" ++ "f") (some "h") = true := by
    rw [hget2]
    exact is_file_verified_of_record _ _ "r" "f" ("d" ++ "/" ++ "f") "h"
      ⟨[1, 2, 3], 0⟩ ⟨"h", 3, 0, 0⟩ (by decide) (by decide) (by decide) rfl (by decide)
      (ratAbs_sub_self 0)
  have h2 := download_file_skip_cached
    (downloadDispatch (fun _ => none) (fun _ _ _ => none)
      (fun _ => some (200, [1, 2, 3])) ("d" ++ "/" ++ "f") 3 0).2.1
    (mark_file_verified
      (downloadDispatch (fun _ => none) (fun _ _ _ => none)
        (fun _ => some (200, [1, 2, 3])) ("d" ++ "/" ++ "f") 3 0).2.1
      (get_file_sha256 ⟨[], []⟩ (some "h") "r" "f").2.1 "r" "f"
      ("d" ++ "/" ++ "f") "h" 0)
    (fun _ => "h") (some "h") 3 (fun _ _ _ => none) (fun _ => some (200, [1, 2, 3])) none
    1 "r" "f" "d" "h" ⟨[1, 2, 3], 0⟩ (by decide) (by rw [hget2]) (by decide) (by decide)
    (by decide) hver2
  rw [h1]
  simp only []
  rw [h2, hget2]
  simp

/-- Witness for the amended C9 at a concrete 3-byte download. -/
theorem c9_idempotent_amended_witness :
    (download_file (fun _ => none) ⟨[], []⟩ (fun _ => "h") (some "h") (some 3)
      (fun _ _ _ => none) (fun _ => some (200, [1, 2, 3])) none 0 "r" "f" "d").ok = true ∧
    (download_file
      (download_file (fun _ => none) ⟨[], []⟩ (fun _ => "h") (some "h") (some 3)
        (fun _ _ _ => none) (fun _ => some (200, [1, 2, 3])) none 0 "r" "f" "d").fs
      (download_file (fun _ => none) ⟨[], []⟩ (fun _ => "h") (some "h") (some 3)
        (fun _ _ _ => none) (fun _ => some (200, [1, 2, 3])) none 0 "r" "f" "d").caches
      (fun _ => "h") (some "h") (some 3) (fun _ _ _ => none)
      (fun _ => some (200, [1, 2, 3])) none 1 "r" "f" "d").ok = true ∧
    (download_file
      (download_file (fun _ => none) ⟨[], []⟩ (fun _ => "h") (some "h") (some 3)
        (fun _ _ _ => none) (fun _ => some (200, [1, 2, 3])) none 0 "r" "f" "d").fs
      (download_file (fun _ => none) ⟨[], []⟩ (fun _ => "h") (some "h") (some 3)
        (fun _ _ _ => none) (fun _ => some (200, [1, 2, 3])) none 0 "r" "f" "d").caches
      (fun _ => "h") (some "h") (some 3) (fun _ _ _ => none)
      (fun _ => some (200, [1, 2, 3])) none 1 "r" "f" "d").contentReqs = 0 ∧
    (download_file
      (download_file (fun _ => none) ⟨[], []⟩ (fun _ => "h") (some "h") (some 3)
        (fun _ _ _ => none) (fun _ => some (200, [1, 2, 3])) none 0 "r" "f" "d").fs
      (download_file (fun _ => none) ⟨[], []⟩ (fun _ => "h") (some "h") (some 3)
        (fun _ _ _ => none) (fun _ => some (200, [1, 2, 3])) none 0 "r" "f" "d").caches
      (fun _ => "h") (some "h") (some 3) (fun _ _ _ => none)
      (fun _ => some (200, [1, 2, 3])) none 1 "r" "f" "d").hashes = 0 ∧
    (download_file
      (download_file (fun _ => none) ⟨[], []⟩ (fun _ => "h") (some "h") (some 3)
        (fun _ _ _ => none) (fun _ => some (200, [1, 2, 3])) none 0 "r" "f" "d").fs
      (download_file (fun _ => none) ⟨[], []⟩ (fun _ => "h") (some "h") (some 3)
        (fun _ _ _ => none) (fun _ => some (200, [1, 2, 3])) none 0 "r" "f" "d").caches
      (fun _ => "h") (some "h") (some 3) (fun _ _ _ => none)
      (fun _ => some (200, [1, 2, 3])) none 1 "r" "f" "d").metaReqs = 1 :=
  c9_idempotent_amended (fun _ => none) ⟨[], []⟩ (fun _ => "h") (some "h") 3
    (fun _ _ _ => none) (fun _ => some (200, [1, 2, 3])) none 0 1 "r" "f" "d" "h"
    ⟨[1, 2, 3], 0⟩ rfl rfl (by decide) (by decide) (by decide) (by decide) (by decide)
    (by decide) (by decide) (by decide)
